import Mathlib

/-!
# Sqrat class binding (`module/Sqrat/sqratClass.h`)

A shallow embedding of the class-binding core of the Squirrel module: the
`Class` / `DerivedClass` constructors, `InitClass`, `InitDerivedClass`,
`BindAccessor` and `BindConstructor`, written as state-passing functions over
a small model of the Squirrel stack API that the header calls.
-/

namespace Sqrat

/-! ## Script objects -/

/-- Symbol of a native function (`SQFUNCTION`, `COPYFUNC`). -/
abbrev SQFUNCTION := String

mutual
/-- Script object handle (`HSQOBJECT`): tables and classes are references into
the VM heap, a class instance and a script closure are known by their
identity, the other objects are values. -/
inductive SQObj where
  | null
  | str (s : String)
  | userdata (bytes : List Nat)
  | table (ref : Nat)
  | cls (ref : Nat)
  | inst (id : Nat)
  | closure (id : Nat)
  | nativeclosure (func : SQFUNCTION) (free : SQFree) (name : Option String)
  deriving DecidableEq, Repr
/-- Free variables captured by a native closure, topmost first. -/
inductive SQFree where
  | nil
  | cons (x : SQObj) (rest : SQFree)
  deriving DecidableEq, Repr
end

/-- Pack a list of objects as captured free variables. -/
def SQFree.ofList : List SQObj → SQFree
  | [] => .nil
  | x :: xs => .cons x (SQFree.ofList xs)

/-- Slots of a table or of a class: a map from slot name to object. -/
abbrev Slots := List (String × SQObj)

/-- Create the slot `k` or overwrite its value when it exists. -/
def setSlot : Slots → String → SQObj → Slots
  | [], k, v => [(k, v)]
  | (k0, v0) :: rest, k, v =>
    if k0 = k then (k, v) :: rest else (k0, v0) :: setSlot rest k v

/-- Value stored under `k`, if any. -/
def getSlot : Slots → String → Option SQObj
  | [], _ => none
  | (k0, v0) :: rest, k => if k0 = k then some v0 else getSlot rest k

/-- Heap cell: a table, or a class with its base, type tag and members. -/
inductive HeapObj where
  | table (slots : Slots)
  | cls (base : Option Nat) (typetag : Option Nat) (slots : Slots)
  deriving DecidableEq, Repr

/-- Slots of a heap cell. -/
def HeapObj.slots : HeapObj → Slots
  | .table s => s
  | .cls _ _ s => s

/-- Replace the slots of a heap cell. -/
def HeapObj.withSlots : HeapObj → Slots → HeapObj
  | .table _, s => .table s
  | .cls b t _, s => .cls b t s

/-! ## Class data (`sqratClassType.h`, declarations only) -/

/-- Static data of a bound class: `StaticClassData<C, B>`; the base link is the
native type of the base's static data. -/
structure StaticClassData where
  copyFunc : SQFUNCTION
  className : String
  baseClass : Option Nat
  deriving DecidableEq, Repr

/-- Per-VM data of a bound class: `ClassData<C>`, tagged with the native type
`C` it belongs to. -/
structure ClassData where
  type : Nat
  classObj : SQObj
  getTable : SQObj
  setTable : SQObj
  instances : Option (List (Nat × SQObj))
  staticData : Option StaticClassData
  deriving DecidableEq, Repr

/-- Result of `new ClassData<C>()`. -/
def ClassData.new (C : Nat) : ClassData :=
  { type := C, classObj := .null, getTable := .null, setTable := .null,
    instances := none, staticData := none }

/-- State of one runtime instance: the Squirrel stack (top first) and heap,
the root table, the `VMContext::classes` map and the native types whose
static class data is set. -/
structure VM where
  stack : List SQObj
  heap : List HeapObj
  roottable : Nat
  classes : List (String × ClassData)
  statics : List Nat
  deriving DecidableEq, Repr

/-- Allocator policy `A`: the symbols of `A::New`, `A::Copy`, `A::iNew<P...>`. -/
structure Allocator where
  New : SQFUNCTION
  Copy : SQFUNCTION
  iNew : Nat → SQFUNCTION

/-! ## Squirrel stack API

The scripting runtime is not part of the binding header; the calls the header
makes are modelled here.  `none` stands for a call outside the API contract
(bad stack index, wrong object kind). -/

/-- Object at stack index `idx`: negative counts from the top, positive from
the bottom. -/
def stackGet (st : List SQObj) (idx : Int) : Option SQObj :=
  if idx < 0 then st[(-idx - 1).toNat]?
  else if 0 < idx then st.reverse[(idx - 1).toNat]?
  else none

/-- Modelled from the spec: `sq_pushobject` (runtime API, an external
collaborator of section 1) pushes the handle. -/
def sq_pushobject (vm : VM) (o : SQObj) : VM :=
  { vm with stack := o :: vm.stack }

/-- Modelled from the spec: `sq_pushstring` (runtime API) pushes a string. -/
def sq_pushstring (vm : VM) (s : String) : VM :=
  { vm with stack := .str s :: vm.stack }

/-- Modelled from the spec: `sq_pushroottable` (runtime API) pushes the root
table. -/
def sq_pushroottable (vm : VM) : VM :=
  { vm with stack := .table vm.roottable :: vm.stack }

/-- Modelled from the spec: `sq_push` (runtime API) pushes a copy of the
object at `idx`. -/
def sq_push (vm : VM) (idx : Int) : Option VM :=
  (stackGet vm.stack idx).map fun o => { vm with stack := o :: vm.stack }

/-- Modelled from the spec: `sq_pop` (runtime API) pops `n` objects. -/
def sq_pop (vm : VM) (n : Nat) : Option VM :=
  if n ≤ vm.stack.length then some { vm with stack := vm.stack.drop n } else none

/-- Modelled from the spec: `sq_remove` (runtime API) removes the object at a
negative index `idx`. -/
def sq_remove (vm : VM) (idx : Int) : Option VM :=
  if idx < 0 ∧ (-idx - 1).toNat < vm.stack.length then
    some { vm with stack := vm.stack.eraseIdx (-idx - 1).toNat }
  else none

/-- Modelled from the spec: `sq_getstackobj` (runtime API) reads the handle at
`idx`. -/
def sq_getstackobj (vm : VM) (idx : Int) : Option SQObj :=
  stackGet vm.stack idx

/-- Modelled from the spec: `sq_newuserdata` followed by `memcpy` of `size`
bytes of `src` (runtime API): pushes a userdata block holding those bytes. -/
def sq_newuserdata (vm : VM) (src : List Nat) (size : Nat) : VM :=
  { vm with stack := .userdata (src.take size) :: vm.stack }

/-- Modelled from the spec: `sq_newclosure` (runtime API) pops `nfree` free
variables and pushes a native closure over them. -/
def sq_newclosure (vm : VM) (f : SQFUNCTION) (nfree : Nat) : Option VM :=
  if nfree ≤ vm.stack.length then
    some { vm with stack :=
      .nativeclosure f (SQFree.ofList (vm.stack.take nfree)) none :: vm.stack.drop nfree }
  else none

/-- Modelled from the spec: `sq_setnativeclosurename` (runtime API) names the
native closure on top of the stack (the header only passes `-1`). -/
def sq_setnativeclosurename (vm : VM) (idx : Int) (name : String) : Option VM :=
  match idx, vm.stack with
  | -1, .nativeclosure f fr _ :: st => some { vm with stack := .nativeclosure f fr (some name) :: st }
  | _, _ => none

/-- Modelled from the spec: `sq_newtable` (runtime API) allocates an empty
table and pushes it. -/
def sq_newtable (vm : VM) : VM :=
  { vm with heap := vm.heap ++ [.table []], stack := .table vm.heap.length :: vm.stack }

/-- Modelled from the spec: `sq_newclass` (runtime API) allocates a class and
pushes it; with `hasbase` the base class is popped and the new class starts
with the base's members. -/
def sq_newclass (vm : VM) (hasbase : Bool) : Option VM :=
  if hasbase then
    match vm.stack with
    | .cls b :: st =>
      match vm.heap[b]? with
      | some (.cls _ _ slots) =>
        some { vm with heap := vm.heap ++ [.cls (some b) none slots],
                       stack := .cls vm.heap.length :: st }
      | _ => none
    | _ => none
  else
    some { vm with heap := vm.heap ++ [.cls none none []],
                   stack := .cls vm.heap.length :: vm.stack }

/-- Modelled from the spec: `sq_settypetag` (runtime API) tags the class at
`idx` with a user pointer (`none` is the null pointer). -/
def sq_settypetag (vm : VM) (idx : Int) (tag : Option Nat) : Option VM :=
  match stackGet vm.stack idx with
  | some (.cls r) =>
    match vm.heap[r]? with
    | some (.cls b _ slots) => some { vm with heap := vm.heap.set r (.cls b tag slots) }
    | _ => none
  | _ => none

/-- Modelled from the spec: `sq_clone` (runtime API) pushes a new table with
the slots of the table at `idx`. -/
def sq_clone (vm : VM) (idx : Int) : Option VM :=
  match stackGet vm.stack idx with
  | some (.table r) =>
    match vm.heap[r]? with
    | some (.table slots) =>
      some { vm with heap := vm.heap ++ [.table slots],
                     stack := .table vm.heap.length :: vm.stack }
    | _ => none
  | _ => none

/-- Heap reference of a table or class handle. -/
def SQObj.ref? : SQObj → Option Nat
  | .table r => some r
  | .cls r => some r
  | _ => none

/-- Modelled from the spec: `sq_newslot` (runtime API) pops a key and a value
and stores the value under the key in the table or class at `idx`, creating
the slot or overwriting it; the header only uses string keys.  The static flag
chooses the member storage of a class and does not change what a lookup of the
slot returns. -/
def sq_newslot (vm : VM) (idx : Int) (_bstatic : Bool) : Option VM :=
  match vm.stack with
  | val :: .str key :: st =>
    match (stackGet vm.stack idx).bind SQObj.ref? with
    | some r =>
      match vm.heap[r]? with
      | some cell =>
        some { vm with heap := vm.heap.set r (cell.withSlots (setSlot cell.slots key val)),
                       stack := st }
      | none => none
    | none => none
  | _ => none

/-- Slots of the table or class behind a handle. -/
def VM.slotsOf (vm : VM) (o : SQObj) : Option Slots :=
  (o.ref?.bind fun r => vm.heap[r]?).map HeapObj.slots

/-- Raw lookup of `key` in the table or class behind a handle. -/
def VM.rawget (vm : VM) (o : SQObj) (key : String) : Option SQObj :=
  (vm.slotsOf o).bind fun s => getSlot s key

/-- Sequencing of API calls: the rest of the code runs on the result of a call
unless the call was outside the API contract. -/
@[noinline]
def andThen {α β : Type} (x : Option α) (f : α → Option β) : Option β :=
  match x with
  | none => none
  | some a => f a

/-! ## `Class::BindAccessor` -/

/-- `Class::BindAccessor(name, var, varSize, func, table)`. -/
def BindAccessor (vm : VM) (name : String) (var : List Nat) (varSize : Nat)
    (func : SQFUNCTION) (table : SQObj) : Option VM :=
  -- Push the get or set table
  let vm := sq_pushobject vm table
  let vm := sq_pushstring vm name
  -- Push the variable offset as a free variable
  let vm := sq_newuserdata vm var varSize
  -- Create the accessor function
  andThen (sq_newclosure vm func 1) fun vm =>
  andThen (sq_setnativeclosurename vm (-1) name) fun vm =>
  -- Add the accessor to the table
  andThen (sq_newslot vm (-3) false) fun vm =>
  -- Pop get/set table
  sq_pop vm 1

/-- The accessor closure `BindAccessor` builds. -/
def accessorClosure (name : String) (var : List Nat) (varSize : Nat) (func : SQFUNCTION) : SQObj :=
  .nativeclosure func (.cons (.userdata (var.take varSize)) .nil) (some name)

/-! ## Class data lookup -/

/-- Modelled from the spec: `ClassType<C>::getClassData` (`sqratClassType.h` is
absent) is the `Lookup(nativeType)` of section 4.1: the class data this runtime
instance holds for the native type `C`. -/
def getClassData (vm : VM) (C : Nat) : Option ClassData :=
  (vm.classes.find? fun e => e.2.type = C).map Prod.snd

/-- Modelled from the spec: `ClassType<C>::hasClassData` (`sqratClassType.h` is
absent): whether the runtime instance already holds class data for `C`. -/
def hasClassData (vm : VM) (C : Nat) : Bool :=
  (getClassData vm C).isSome

/-- Modelled from the spec: `ClassType<C>::getStaticClassData()`
(`sqratClassType.h` is absent) tested for non-null: whether static class data
of `C` is set.  The constructors below never set it (the assignments are
commented out in the header). -/
def getStaticClassData (vm : VM) (C : Nat) : Bool :=
  decide (C ∈ vm.statics)

/-- `classes.try_emplace(className, ptr)`: inserts only when the key is free. -/
def try_emplace (classes : List (String × ClassData)) (className : String) (cd : ClassData) :
    List (String × ClassData) :=
  if (classes.lookup className).isSome then classes else classes ++ [(className, cd)]

/-- Pointer `cd->staticData.Get()`: identified by the native type owning the
static data, null when no static data is attached. -/
def ClassData.staticPtr (cd : ClassData) : Option Nat :=
  cd.staticData.map fun _ => cd.type

/-- What a constructor run leaves behind: the runtime state and the exception
it threw, if any. -/
structure Outcome where
  vm : VM
  thrown : Option String
  deriving DecidableEq, Repr

/-! ## `Class::InitClass` and the `Class` constructor -/

/-- Symbol of `Class<C, A>::ClassWeakref`. -/
def ClassWeakref (C : Nat) : SQFUNCTION := "ClassWeakref/" ++ toString C
/-- Symbol of `Class<C, A>::ClassTypeof`. -/
def ClassTypeof (C : Nat) : SQFUNCTION := "ClassTypeof/" ++ toString C
/-- Symbol of `Class<C, A>::ClassCloned`. -/
def ClassCloned (C : Nat) : SQFUNCTION := "ClassCloned/" ++ toString C

/-- `Class::InitClass(cd)`: returns the runtime state and the class data as
written through `cd`.  The header takes the VM from `SqVM()`, the default VM,
which is the VM the class is created in. -/
def InitClass (A : Allocator) (vm : VM) (cd : ClassData) : Option (VM × ClassData) :=
  let cd := { cd with instances := some [] }
  -- push the class
  let vm := sq_pushobject vm cd.classObj
  -- set the typetag of the class
  andThen (sq_settypetag vm (-1) cd.staticPtr) fun vm =>
  -- add the default constructor
  let vm := sq_pushstring vm "constructor"
  andThen (sq_newclosure vm A.New 0) fun vm =>
  andThen (sq_setnativeclosurename vm (-1) "constructor") fun vm =>
  andThen (sq_newslot vm (-3) false) fun vm =>
  -- add the set table (static)
  let vm := sq_pushstring vm "@set"
  let vm := sq_newtable vm
  andThen (sq_getstackobj vm (-1)) fun setTable =>
  let cd := { cd with setTable := setTable }
  andThen (sq_newslot vm (-3) true) fun vm =>
  -- add the get table (static)
  let vm := sq_pushstring vm "@get"
  let vm := sq_newtable vm
  andThen (sq_getstackobj vm (-1)) fun getTable =>
  let cd := { cd with getTable := getTable }
  andThen (sq_newslot vm (-3) true) fun vm =>
  -- override _set
  let vm := sq_pushstring vm "_set"
  let vm := sq_pushobject vm setTable
  andThen (sq_newclosure vm "sqVarSet" 1) fun vm =>
  andThen (sq_setnativeclosurename vm (-1) "_set") fun vm =>
  andThen (sq_newslot vm (-3) false) fun vm =>
  -- override _get
  let vm := sq_pushstring vm "_get"
  let vm := sq_pushobject vm getTable
  andThen (sq_newclosure vm "sqVarGet" 1) fun vm =>
  andThen (sq_setnativeclosurename vm (-1) "_get") fun vm =>
  andThen (sq_newslot vm (-3) false) fun vm =>
  -- add weakref
  let vm := sq_pushstring vm "weakref"
  andThen (sq_newclosure vm (ClassWeakref cd.type) 0) fun vm =>
  andThen (sq_setnativeclosurename vm (-1) "weakref") fun vm =>
  andThen (sq_newslot vm (-3) false) fun vm =>
  -- add _typeof
  let vm := sq_pushstring vm "_typeof"
  andThen (sq_newclosure vm (ClassTypeof cd.type) 0) fun vm =>
  andThen (sq_setnativeclosurename vm (-1) "_typeof") fun vm =>
  andThen (sq_newslot vm (-3) false) fun vm =>
  -- add _cloned
  let vm := sq_pushstring vm "_cloned"
  andThen (sq_newclosure vm (ClassCloned cd.type) 0) fun vm =>
  andThen (sq_setnativeclosurename vm (-1) "_cloned") fun vm =>
  andThen (sq_newslot vm (-3) false) fun vm =>
  -- pop the class
  andThen (sq_pop vm 1) fun vm =>
  some (vm, cd)

/-- Constructor `Class<C, A>::Class(v, className, createClass)`.  The map
entry made by `try_emplace` points to `cd`, so it shows every later write
through `cd`; when the key is taken the class data is not stored. -/
def Class.ctor (C : Nat) (A : Allocator) (v : VM) (className : String) (createClass : Bool) :
    Option Outcome :=
  if createClass && !hasClassData v C then
    let cd := ClassData.new C
    if !getStaticClassData v C then
      let sd : StaticClassData := { copyFunc := A.Copy, className := className, baseClass := none }
      let cd := { cd with staticData := some sd }
      andThen (sq_newclass v false) fun vm =>
      andThen (sq_getstackobj vm (-1)) fun classObj =>
      let cd := { cd with classObj := classObj }
      andThen (sq_pop vm 1) fun vm =>
      andThen (InitClass A vm cd) fun (vm, cd) =>
      some { vm := { vm with classes := try_emplace vm.classes className cd }, thrown := none }
    else
      some { vm := { v with classes := try_emplace v.classes className cd },
             thrown := some "investigate me! [Class]" }
  else
    some { vm := v, thrown := none }

/-! ## `DerivedClass::InitDerivedClass` and the `DerivedClass` constructor -/

/-- `DerivedClass::InitDerivedClass(vm, cd, bd)`. -/
def InitDerivedClass (A : Allocator) (vm : VM) (cd bd : ClassData) : Option (VM × ClassData) :=
  let cd := { cd with instances := some [] }
  -- push the class
  let vm := sq_pushobject vm cd.classObj
  -- set the typetag of the class
  andThen (sq_settypetag vm (-1) cd.staticPtr) fun vm =>
  -- add the default constructor
  let vm := sq_pushstring vm "constructor"
  andThen (sq_newclosure vm A.New 0) fun vm =>
  andThen (sq_setnativeclosurename vm (-1) "constructor") fun vm =>
  andThen (sq_newslot vm (-3) false) fun vm =>
  -- clone the base classes set table (static)
  let vm := sq_pushobject vm bd.setTable
  let vm := sq_pushstring vm "@set"
  andThen (sq_clone vm (-2)) fun vm =>
  andThen (sq_remove vm (-3)) fun vm =>
  andThen (sq_getstackobj vm (-1)) fun setTable =>
  let cd := { cd with setTable := setTable }
  andThen (sq_newslot vm (-3) true) fun vm =>
  -- clone the base classes get table (static)
  let vm := sq_pushobject vm bd.getTable
  let vm := sq_pushstring vm "@get"
  andThen (sq_clone vm (-2)) fun vm =>
  andThen (sq_remove vm (-3)) fun vm =>
  andThen (sq_getstackobj vm (-1)) fun getTable =>
  let cd := { cd with getTable := getTable }
  andThen (sq_newslot vm (-3) true) fun vm =>
  -- override _set
  let vm := sq_pushstring vm "_set"
  let vm := sq_pushobject vm setTable
  andThen (sq_newclosure vm "sqVarSet" 1) fun vm =>
  andThen (sq_setnativeclosurename vm (-1) "_set") fun vm =>
  andThen (sq_newslot vm (-3) false) fun vm =>
  -- override _get
  let vm := sq_pushstring vm "_get"
  let vm := sq_pushobject vm getTable
  andThen (sq_newclosure vm "sqVarGet" 1) fun vm =>
  andThen (sq_setnativeclosurename vm (-1) "_get") fun vm =>
  andThen (sq_newslot vm (-3) false) fun vm =>
  -- add weakref
  let vm := sq_pushstring vm "weakref"
  andThen (sq_newclosure vm (ClassWeakref cd.type) 0) fun vm =>
  andThen (sq_setnativeclosurename vm (-1) "weakref") fun vm =>
  andThen (sq_newslot vm (-3) false) fun vm =>
  -- add _typeof
  let vm := sq_pushstring vm "_typeof"
  andThen (sq_newclosure vm (ClassTypeof cd.type) 0) fun vm =>
  andThen (sq_setnativeclosurename vm (-1) "_typeof") fun vm =>
  andThen (sq_newslot vm (-3) false) fun vm =>
  -- add _cloned
  let vm := sq_pushstring vm "_cloned"
  andThen (sq_newclosure vm (ClassCloned cd.type) 0) fun vm =>
  andThen (sq_setnativeclosurename vm (-1) "_cloned") fun vm =>
  andThen (sq_newslot vm (-3) false) fun vm =>
  -- pop the class
  andThen (sq_pop vm 1) fun vm =>
  some (vm, cd)

/-- Constructor `DerivedClass<C, B, A>::DerivedClass(v, className)`: runs the
base-class constructor `Class<C, A>(v, string(), false)` first. -/
def DerivedClass.ctor (C B : Nat) (A : Allocator) (v : VM) (className : String) :
    Option Outcome :=
  andThen (Class.ctor C A v "" false) fun o =>
  let v := o.vm
  if !hasClassData v C then
    andThen (getClassData v B) fun bd =>
    let cd := ClassData.new C
    if !getStaticClassData v C then
      let sd : StaticClassData :=
        { copyFunc := A.Copy, className := className, baseClass := bd.staticPtr }
      let cd := { cd with staticData := some sd }
      let vm := sq_pushobject v bd.classObj
      andThen (sq_newclass vm true) fun vm =>
      andThen (sq_getstackobj vm (-1)) fun classObj =>
      let cd := { cd with classObj := classObj }
      andThen (sq_pop vm 1) fun vm =>
      andThen (InitDerivedClass A vm cd bd) fun (vm, cd) =>
      some { vm := { vm with classes := try_emplace vm.classes className cd }, thrown := none }
    else
      some { vm := { v with classes := try_emplace v.classes className cd },
             thrown := some "investigate me! [DerivedClass]" }
  else
    some { vm := v, thrown := none }

/-! ## `Class::BindConstructor` and `Class::Ctor` -/

/-- The cast `static_cast<int>` of an `SQInteger`. -/
def toInt32 (x : Int) : Int :=
  (x + 2 ^ 31) % 2 ^ 32 - 2 ^ 31

/-- `Class::BindConstructor(constructor, nParams, name)`; `name = none` is the
null pointer.  `SqOverloadName::Get` is declared outside the header and is the
parameter `mangle`. -/
def BindConstructor (C : Nat) (mangle : String → Int → String) (vm : VM)
    (constructor : SQFUNCTION) (nParams : Int) (name : Option String) : Option VM :=
  -- Decide whether to bind to a class or the root table
  let alternative_global := name.isSome
  let name := name.getD "constructor"
  -- Generate the overload mangled name
  let overloadName := mangle name (toInt32 nParams)
  -- Should we push a class object?
  andThen (if !alternative_global then
      (getClassData vm C).map fun cd => sq_pushobject vm cd.classObj
    else some (sq_pushroottable vm)) fun vm =>
  -- Bind overload handler name
  let vm := sq_pushstring vm name
  -- function name is passed as a free variable
  andThen (sq_push vm (-1)) fun vm =>
  andThen (sq_newclosure vm "OverloadConstructionForwarder" 1) fun vm =>
  andThen (sq_setnativeclosurename vm (-1) name) fun vm =>
  -- Include it into the object
  andThen (sq_newslot vm (-3) false) fun vm =>
  -- Bind overloaded function
  let vm := sq_pushstring vm overloadName
  andThen (sq_newclosure vm constructor 0) fun vm =>
  andThen (sq_setnativeclosurename vm (-1) overloadName) fun vm =>
  -- Include it into the object
  andThen (sq_newslot vm (-3) false) fun vm =>
  -- pop object/environment
  sq_pop vm 1

/-- `Class::Ctor<P...>(name)` with `n = sizeof...(P)` (`n = 0` is the plain
`Ctor(name)`). -/
def Ctor (C : Nat) (A : Allocator) (mangle : String → Int → String) (vm : VM)
    (n : Nat) (name : Option String) : Option VM :=
  BindConstructor C mangle vm (A.iNew n) n name

/-- Members a class holds after `InitClass` / `InitDerivedClass` ran on a class
that started with `slots`, the set and get tables being the heap cells
`setRef` and `getRef`. -/
def initMembers (A : Allocator) (C : Nat) (slots : Slots) (setRef getRef : Nat) : Slots :=
  setSlot (setSlot (setSlot (setSlot (setSlot (setSlot (setSlot (setSlot slots
    "constructor" (.nativeclosure A.New .nil (some "constructor")))
    "@set" (.table setRef))
    "@get" (.table getRef))
    "_set" (.nativeclosure "sqVarSet" (.cons (.table setRef) .nil) (some "_set")))
    "_get" (.nativeclosure "sqVarGet" (.cons (.table getRef) .nil) (some "_get")))
    "weakref" (.nativeclosure (ClassWeakref C) .nil (some "weakref")))
    "_typeof" (.nativeclosure (ClassTypeof C) .nil (some "_typeof")))
    "_cloned" (.nativeclosure (ClassCloned C) .nil (some "_cloned"))

/-- Container `BindConstructor` binds into: the class object of `C` when no
name is given, the root table otherwise. -/
def ctorContainer (vm : VM) (C : Nat) (name : Option String) : Option SQObj :=
  match name with
  | none => (getClassData vm C).map fun cd => cd.classObj
  | some _ => some (.table vm.roottable)

/-- The forwarder closure `BindConstructor` stores under `name`. -/
def ctorForwarder (name : String) : SQObj :=
  .nativeclosure "OverloadConstructionForwarder" (.cons (.str name) .nil) (some name)

/-- Class data a successful root registration builds. -/
def rootClassData (C : Nat) (A : Allocator) (className : String) (base : Nat) : ClassData :=
  { type := C, classObj := .cls base, getTable := .table (base + 2),
    setTable := .table (base + 1), instances := some [],
    staticData := some { copyFunc := A.Copy, className := className, baseClass := none } }

/-- Class data a successful derived registration builds. -/
def derivedClassData (C : Nat) (A : Allocator) (className : String) (bd : ClassData)
    (base : Nat) : ClassData :=
  { type := C, classObj := .cls base, getTable := .table (base + 2),
    setTable := .table (base + 1), instances := some [],
    staticData := some { copyFunc := A.Copy, className := className, baseClass := bd.staticPtr } }

/-! ## Error taxonomy (spec section 7) -/

/-- Errors named by the specification. -/
inductive Error where
  | DuplicateTypeError
  | DuplicateOverloadError
  | NoMatchingOverloadError
  | TypeMismatchError
  | StaleHandleError
  deriving DecidableEq, Repr

/-! ## Overload dispatcher

`Object::BindOverload` and the execution forwarder live in headers that are
not part of the sources at hand; `Class::Overload` is. -/

namespace Overloads

/-- Native callable handed to `Overload`: its symbol and its number of
parameters. -/
structure Callable where
  symbol : String
  params : Nat
  deriving DecidableEq, Repr

/-- Modelled from the spec: `SqGetArgCount(method)` (declared outside the
header): the number of parameters in the signature of the callable, the
implicit `this` of a member function not being one of them. -/
def SqGetArgCount (method : Callable) : Int := method.params

/-- `SqMemberOverloadedFunc(method)`: symbol of the trampoline generated for
the member function. -/
def SqMemberOverloadedFunc (method : Callable) : SQFUNCTION :=
  "SqMemberOverloadedFunc/" ++ method.symbol

/-- Modelled from the spec: an `OverloadEntry` of section 3, one
`(name, arity)` key with its trampoline. -/
structure Entry where
  name : String
  arity : Int
  trampoline : SQFUNCTION
  deriving DecidableEq, Repr

/-- Modelled from the spec: the overload table of one descriptor. -/
abbrev Table := List Entry

/-- Whether the entry is keyed by `(name, arity)`. -/
def Entry.hasKey (e : Entry) (name : String) (arity : Int) : Bool :=
  decide (e.name = name) && decide (e.arity = arity)

/-- Modelled from the spec: `BindOverload(descriptor, name, arity, trampoline)`
of section 4.3 (`Object::BindOverload` is absent): keeps `(name, arity)` pairs
unique, a second binding of a pair is a `DuplicateOverloadError`. -/
def BindOverload (t : Table) (name : String) (arity : Int) (trampoline : SQFUNCTION) :
    Except Error Table :=
  if t.any fun e => e.hasKey name arity then .error .DuplicateOverloadError
  else .ok (t ++ [{ name := name, arity := arity, trampoline := trampoline }])

/-- Modelled from the spec: `Resolve(descriptor, name, argCount)` of section
4.3 (the execution forwarder is absent): exact-arity lookup, failing with
`NoMatchingOverloadError`. -/
def Resolve (t : Table) (name : String) (argCount : Int) : Except Error SQFUNCTION :=
  match t.find? fun e => e.hasKey name argCount with
  | some e => .ok e.trampoline
  | none => .error .NoMatchingOverloadError

/-- `Class::Overload(name, method)`: binds the member trampoline under the
argument count of `method`. -/
def Overload (t : Table) (name : String) (method : Callable) : Except Error Table :=
  BindOverload t name (SqGetArgCount method) (SqMemberOverloadedFunc method)

/-- A chain of `.Overload(name, method)` calls, as written in a binding. -/
def OverloadAll : Table → List (String × Callable) → Except Error Table
  | t, [] => .ok t
  | t, (name, method) :: rest =>
    match Overload t name method with
    | .ok t1 => OverloadAll t1 rest
    | .error e => .error e

/-- Entry `Overload` makes for a named callable. -/
def entryOf (b : String × Callable) : Entry :=
  { name := b.1, arity := SqGetArgCount b.2, trampoline := SqMemberOverloadedFunc b.2 }

/-- No two entries of the table share a `(name, arity)` key. -/
def UniqueKeys (t : Table) : Prop :=
  t.Pairwise fun e1 e2 => ¬ (e1.name = e2.name ∧ e1.arity = e2.arity)

/-- The `Reset` overloads of the XML document binding, with no and one
parameter. -/
def resetOverloads : List (String × Callable) :=
  [("Reset", { symbol := "XmlDocument::Reset0", params := 0 }),
   ("Reset", { symbol := "XmlDocument::Reset1", params := 1 })]

end Overloads

/-! ## Instance lifetime manager

The allocators that fill `ClassData::instances` are not part of the sources at
hand. -/

namespace Instances

/-- Modelled from the spec: state of the Instance Lifetime Manager of section
4.4 for one type (`sqratAllocator.h` is absent): the `InstanceRecord`s, native
address to script handle as in `std::unordered_map<C*, HSQOBJECT>`, and the
number of handles created so far. -/
structure Manager where
  records : List (Nat × SQObj)
  created : Nat
  deriving DecidableEq, Repr

/-- The empty map `InitClass` and `InitDerivedClass` install. -/
def Manager.init : Manager := { records := [], created := 0 }

/-- Handle recorded for a native address. -/
def Manager.handleOf (m : Manager) (addr : Nat) : Option SQObj :=
  (m.records.find? fun r => r.1 = addr).map Prod.snd

/-- Modelled from the spec: `Bind(nativeAddress, descriptor) -> handle`
creates, or returns the existing, script handle of the address and inserts an
`InstanceRecord` if none exists. -/
def Bind (m : Manager) (addr : Nat) : SQObj × Manager :=
  match m.handleOf addr with
  | some h => (h, m)
  | none =>
    (.inst m.created,
      { records := m.records ++ [(addr, .inst m.created)], created := m.created + 1 })

/-- Modelled from the spec: `Unbind(nativeAddress, descriptor)` removes the
record of the address. -/
def Unbind (m : Manager) (addr : Nat) : Manager :=
  { m with records := m.records.filter fun r => r.1 ≠ addr }

/-- Modelled from the spec: `Resolve(handle) -> nativeAddress`, the reverse
lookup, failing with `StaleHandleError` when no record holds the handle. -/
def Resolve (m : Manager) (h : SQObj) : Except Error Nat :=
  match m.records.find? fun r => r.2 = h with
  | some r => .ok r.1
  | none => .error .StaleHandleError

/-- Bind the addresses of a list one after the other. -/
def BindAll : Manager → List Nat → Manager
  | m, [] => m
  | m, addr :: rest => BindAll (Bind m addr).2 rest

/-- States of the manager reached from the empty map by `Bind` and `Unbind`. -/
inductive Reachable : Manager → Prop where
  | init : Reachable Manager.init
  | bind (m : Manager) (addr : Nat) : Reachable m → Reachable (Bind m addr).2
  | unbind (m : Manager) (addr : Nat) : Reachable m → Reachable (Unbind m addr)

/-- Invariant of the manager: one record per address, one record per handle,
every recorded handle was created by the manager. -/
def Inv (m : Manager) : Prop :=
  (m.records.map Prod.fst).Nodup ∧ (m.records.map Prod.snd).Nodup ∧
    ∀ r ∈ m.records, ∃ i, i < m.created ∧ r.2 = .inst i

end Instances

/-! ## Sample runtime states -/

/-- A runtime instance holding only an empty root table. -/
def vm0 : VM :=
  { stack := [], heap := [.table []], roottable := 0, classes := [], statics := [] }

/-- A sample allocator policy. -/
def alloc0 : Allocator :=
  { New := "New", Copy := "Copy", iNew := fun n => "iNew/" ++ toString n }

/-- A sample overload-name mangling: decimal argument count, then the name. -/
def mangle0 (name : String) (args : Int) : String :=
  "_o" ++ toString args ++ "_" ++ name

/-- The sample runtime after registering native type 1 as "Base". -/
def vmBase : VM :=
  ((Class.ctor 1 alloc0 vm0 "Base" true).map Outcome.vm).getD vm0

/-- Class data of "Base" in the sample runtime. -/
def cdBase : ClassData := rootClassData 1 alloc0 "Base" 1

/-- The sample runtime after binding the getter "x" on "Base". -/
def vmBaseX : VM :=
  (BindAccessor vmBase "x" [8] 1 "sqDefaultGet" (.table 3)).getD vmBase

/-! ## `Class::GlobalOverload` and `Class::StaticOverload` -/

namespace Overloads

/-- `SqMemberGlobalOverloadedFunc(method)`: symbol of the trampoline generated
for a free function taking the instance as first parameter. -/
def SqMemberGlobalOverloadedFunc (method : Callable) : SQFUNCTION :=
  "SqMemberGlobalOverloadedFunc/" ++ method.symbol

/-- `SqGlobalOverloadedFunc(method)`: symbol of the trampoline generated for a
static function. -/
def SqGlobalOverloadedFunc (method : Callable) : SQFUNCTION :=
  "SqGlobalOverloadedFunc/" ++ method.symbol

/-- `Class::GlobalOverload(name, method)`: binds the trampoline of a free
function under its argument count less one. -/
def GlobalOverload (t : Table) (name : String) (method : Callable) : Except Error Table :=
  BindOverload t name (SqGetArgCount method - 1) (SqMemberGlobalOverloadedFunc method)

/-- `Class::StaticOverload(name, method)`: binds the trampoline of a static
function under its argument count. -/
def StaticOverload (t : Table) (name : String) (method : Callable) : Except Error Table :=
  BindOverload t name (SqGetArgCount method) (SqGlobalOverloadedFunc method)

end Overloads

/-! ## Variable and property binders -/

/-- Symbol of `sqDefaultGet<C, V>`. -/
def sqDefaultGet (C V : Nat) : SQFUNCTION :=
  "sqDefaultGet/" ++ toString C ++ "/" ++ toString V

/-- Symbol of `sqDefaultSet<C, V>`. -/
def sqDefaultSet (C V : Nat) : SQFUNCTION :=
  "sqDefaultSet/" ++ toString C ++ "/" ++ toString V

/-- `Class::Var(name, var)`; `var` is the object representation of the member
pointer of type `V C::*`, `sizeof(var)` its length. -/
def Var (C V : Nat) (vm : VM) (name : String) (var : List Nat) : Option VM :=
  andThen (getClassData vm C) fun cd =>
  -- Add the getter
  andThen (BindAccessor vm name var var.length (sqDefaultGet C V) cd.getTable) fun vm =>
  -- Add the setter
  BindAccessor vm name var var.length (sqDefaultSet C V) cd.setTable

/-- `Class::ConstVar(name, var)`. -/
def ConstVar (C V : Nat) (vm : VM) (name : String) (var : List Nat) : Option VM :=
  andThen (getClassData vm C) fun cd =>
  -- Add the getter
  BindAccessor vm name var var.length (sqDefaultGet C V) cd.getTable

/-- The one-function `Class::Prop(name, getMethod)`, the read-only property;
`repr` gives the object representation of a function pointer. -/
def PropGetter (C : Nat) (repr : Overloads.Callable → List Nat) (vm : VM) (name : String)
    (getMethod : Overloads.Callable) : Option VM :=
  andThen (getClassData vm C) fun cd =>
  -- Add the getter
  BindAccessor vm name (repr getMethod) (repr getMethod).length
    (Overloads.SqMemberOverloadedFunc getMethod) cd.getTable

/-- The one-function `Class::GlobalProp(name, getMethod)`, the read-only
property over a global function. -/
def GlobalPropGetter (C : Nat) (repr : Overloads.Callable → List Nat) (vm : VM) (name : String)
    (getMethod : Overloads.Callable) : Option VM :=
  andThen (getClassData vm C) fun cd =>
  -- Add the getter
  BindAccessor vm name (repr getMethod) (repr getMethod).length
    (Overloads.SqMemberGlobalOverloadedFunc getMethod) cd.getTable

/-! ## `Class::GetFunction` -/

/-- Type tag of a script object (`SQObjectType`). -/
inductive SQObjectType where
  | OT_NULL
  | OT_STRING
  | OT_USERDATA
  | OT_TABLE
  | OT_CLASS
  | OT_INSTANCE
  | OT_CLOSURE
  | OT_NATIVECLOSURE
  deriving DecidableEq, Repr

/-- Type tag of an object. -/
def SQObj.type : SQObj → SQObjectType
  | .null => .OT_NULL
  | .str _ => .OT_STRING
  | .userdata _ => .OT_USERDATA
  | .table _ => .OT_TABLE
  | .cls _ => .OT_CLASS
  | .inst _ => .OT_INSTANCE
  | .closure _ => .OT_CLOSURE
  | .nativeclosure _ _ _ => .OT_NATIVECLOSURE

/-- Modelled from the spec: `sq_gettype` (runtime API) gives the type tag of
the object at `idx`. -/
def sq_gettype (vm : VM) (idx : Int) : Option SQObjectType :=
  (stackGet vm.stack idx).map SQObj.type

/-- Modelled from the spec: `sq_get` (runtime API) pops a key and looks it up
in the object at `idx`: on success the value is pushed, on failure nothing is;
the flag is `SQ_SUCCEEDED` of the result.  The header only uses string keys. -/
def sq_get (vm : VM) (idx : Int) : Option (Bool × VM) :=
  match vm.stack with
  | .str key :: st =>
    match stackGet vm.stack idx with
    | some self =>
      match vm.rawget self key with
      | some v => some (true, { vm with stack := v :: st })
      | none => some (false, { vm with stack := st })
    | none => none
  | _ => none

/-- A `Sqrat::Function`: the environment object and the callable. -/
structure Function where
  env : SQObj
  obj : SQObj
  deriving DecidableEq, Repr

/-- The null function `Function()`. -/
def Function.null : Function := { env := .null, obj := .null }

/-- `Class::GetFunction(name)`, built with error checking (without
`SCRAT_NO_ERROR_CHECKING`): the function found and the runtime state. -/
def GetFunction (C : Nat) (vm : VM) (name : String) : Option (Function × VM) :=
  andThen (getClassData vm C) fun cd =>
  let vm := sq_pushobject vm cd.classObj
  let vm := sq_pushstring vm name
  andThen (sq_get vm (-2)) fun (succeeded, vm) =>
  if !succeeded then
    andThen (sq_pop vm 1) fun vm =>
    some (Function.null, vm)
  else
    andThen (sq_gettype vm (-1)) fun value_type =>
    if value_type ≠ .OT_CLOSURE ∧ value_type ≠ .OT_NATIVECLOSURE then
      andThen (sq_pop vm 2) fun vm =>
      some (Function.null, vm)
    else
      andThen (sq_getstackobj vm (-1)) fun funcObj =>
      let ret : Function := { env := cd.classObj, obj := funcObj }
      andThen (sq_pop vm 2) fun vm =>
      some (ret, vm)

/-- Sample object representation of a function pointer: eight bytes, the first
the length of its symbol. -/
def repr0 (f : Overloads.Callable) : List Nat :=
  [f.symbol.length % 256, 0, 0, 0, 0, 0, 0, 0]

end Sqrat

/-!
# Byte buffer (`module/Core/Buffer.hpp`)
-/

namespace SqMod

/-- The class `Buffer`: the pointer `m_Ptr` (0 is `nullptr`), the capacity
`m_Cap` and the cursor `m_Cur`, both of type `SzType` (`unsigned int`). -/
structure Buffer where
  m_Ptr : Nat
  m_Cap : Nat
  m_Cur : Nat
  deriving DecidableEq, Repr

/-- Default constructor `Buffer()`. -/
def Buffer.null : Buffer := { m_Ptr := 0, m_Cap := 0, m_Cur := 0 }

/-- Steal constructor `Buffer(data, size, pos, OwnIt)` before `Move(pos)`,
that is `Buffer(data, size, OwnIt)`. -/
def Buffer.own (data size : Nat) : Buffer := { m_Ptr := data, m_Cap := size, m_Cur := 0 }

/-- `Buffer::Max<T>()` for `sizeof(T) = sizeofT`. -/
def Buffer.Max (sizeofT : Nat) : Nat :=
  (0xFFFFFFFF / sizeofT) % 2 ^ 32

/-- `Buffer::Capacity()`. -/
def Buffer.Capacity (self : Buffer) : Nat := self.m_Cap

/-- `Buffer::Position()`. -/
def Buffer.Position (self : Buffer) : Nat := self.m_Cur

/-- `Buffer::Adjust<T>(n)` for `sizeof(T) = sizeofT`: the buffer afterwards and
the buffer returned, or the exception thrown.  `Buffer::Request` is only
declared in the header and is the parameter `Request`. -/
def Buffer.Adjust (Request : Buffer → Nat → Except String Buffer) (sizeofT : Nat)
    (self : Buffer) (n : Nat) : Except String (Buffer × Buffer) :=
  -- Do we meet the minimum size?
  let n := if n < 8 then 8 else n
  -- See if the requested capacity doesn't exceed the limit
  if n > Buffer.Max sizeofT then
    .error "Requested buffer of elements exceeds the limit"
  -- Is there an existing buffer?
  else if n ≠ 0 ∧ self.m_Cap = 0 then
    match Request self (n * sizeofT % 2 ^ 32) with
    | .ok self => .ok (self, Buffer.null)
    | .error e => .error e
  -- Should the size be increased?
  else if n > self.m_Cap then
    -- Backup the current memory
    let bkp := self
    let self := Buffer.null
    -- Request the memory
    match Request self (n * sizeofT % 2 ^ 32) with
    | .ok self => .ok (self, bkp)
    | .error e => .error e
  -- Return an empty buffer
  else .ok (self, Buffer.null)

/-- `Buffer::Swap(o)`: the two buffers afterwards, `this` first. -/
def Buffer.Swap (self o : Buffer) : Buffer × Buffer :=
  let p := self.m_Ptr
  let n := self.m_Cap
  let self := { self with m_Ptr := o.m_Ptr, m_Cap := o.m_Cap }
  let o := { o with m_Ptr := p, m_Cap := n }
  (self, o)

/-- `Buffer::ToStr()` over the memory `mem` (address to byte): the
`Position()` bytes at `m_Ptr`, the empty string for a null buffer. -/
def Buffer.ToStr (mem : Nat → Nat) (self : Buffer) : List Nat :=
  if self.m_Ptr ≠ 0 then (List.range self.Position).map fun i => mem (self.m_Ptr + i) else []

/-- `Buffer::At<T>(n)` for `sizeof(T) = sizeofT`: the address of the element
referred to, or the exception thrown.  The subtraction is done in `size_t`. -/
def Buffer.At (sizeofT : Nat) (self : Buffer) (n : Nat) : Except String Nat :=
  -- Make sure that the buffer can host at least one element of this type
  if self.m_Cap < sizeofT then
    .error "Buffer capacity is unable to host an element of this size"
  -- Make sure that the specified element is withing buffer range
  else if n > (self.m_Cap + 2 ^ 64 - sizeofT) % 2 ^ 64 then
    .error "Element at index is out of buffer capacity"
  -- Return the requested element
  else .ok (self.m_Ptr + n)

/-- A sample memory: every address holds its own low byte. -/
def mem0 (addr : Nat) : Nat := addr % 256

end SqMod

/-!
# String utilities (`module/Library/String.cpp`)
-/

namespace SqMod

/-- Byte at index `i` of the NUL-terminated buffer behind a string value. -/
def charAt (val : List Char) (i : Nat) : Char :=
  (val ++ [Char.ofNat 0]).getD i (Char.ofNat 0)

/-- The C string a pointer sees: the characters before the first NUL. -/
def cstr (val : List Char) : List Char :=
  val.takeWhile fun c => c ≠ Char.ofNat 0

/-- `OnlyDelimiter(str, chr)` on the C string `str`. -/
def OnlyDelimiter : List Char → Char → Bool
  | [], _ => true
  | c :: rest, chr =>
    -- Is this different from the delimiter?
    if c ≠ chr then false else OnlyDelimiter rest chr

/-- The counting loop of `SqStrExplode` over the rest of the C string: the
positions `itr` and `last` and the counter `num` (`uint32_t`) at its end. -/
def explodeCount (delim : Char) (empty : Bool) : List Char → Nat → Nat → Nat → Nat × Nat × Nat
  | [], itr, last, num => (itr, last, num)
  | c :: rest, itr, last, num =>
    let itr := itr + 1
    -- Is this our delimiter?
    if c = delim then
      -- Are we allowed to include empty elements?
      let num := if empty || decide (itr - last > 1) then (num + 1) % 2 ^ 32 else num
      -- Update the last delimiter position
      explodeCount delim empty rest itr itr num
    else explodeCount delim empty rest itr last num

/-- An array element: a string, or null (`none`). -/
abbrev Element := Option (List Char)

/-- Modelled from the spec: `sq_set` (runtime API) on an array: stores the
value at an index within the array and fails on any other index. -/
def arraySet (arr : List Element) (idx : Nat) (v : List Char) : Except String (List Element) :=
  if idx < arr.length then .ok (arr.set idx (some v)) else .error "index out of range"

/-- The slicing loop of `SqStrExplode` over the rest of the C string: the
array, the positions `itr` and `last` and the element index `num` at its end,
or the error of a failed `sq_set`. -/
def explodeSlice (val : List Char) (delim : Char) (empty : Bool) :
    List Char → List Element → Nat → Nat → Nat → Except String (List Element × Nat × Nat × Nat)
  | [], arr, itr, last, num => .ok (arr, itr, last, num)
  | c :: rest, arr, itr, last, num =>
    let itr := itr + 1
    -- Is this our delimiter?
    if c = delim then
      -- Are we allowed to include empty elements?
      if empty || decide (itr - last > 1) then
        -- Push the string portion and assign it at the element index
        match arraySet arr num ((val.drop last).take (itr - last - 1)) with
        | .ok arr => explodeSlice val delim empty rest arr itr itr ((num + 1) % 2 ^ 32)
        | .error e => .error e
      else explodeSlice val delim empty rest arr itr itr num
    else explodeSlice val delim empty rest arr itr last num

/-- `SqStrExplode` once its three arguments are read from the stack: the
delimiter, the flag `empty` and the string value `val` (`val.mPtr` with
`val.mLen` characters); the array returned, or the error raised. -/
def SqStrExplode (delim : Char) (empty : Bool) (val : List Char) :
    Except String (List Element) :=
  -- Create an empty array on the stack
  let arr : List Element := []
  -- See if we actually have something to explode
  if charAt val 0 = Char.ofNat 0 then .ok arr
  else
    let str := cstr val
    -- Pre-count how many delimiters of this type exist
    let (itr, last, num) := explodeCount delim empty str 0 0 0
    -- Were there no delimiters found and can we include empty elements?
    if num = 0 ∧ empty = false ∧ (charAt val 1 = Char.ofNat 0 ∨ OnlyDelimiter str delim = true) then
      .ok arr
    -- Have we found any delimiters?
    else if num = 0 then
      -- Test against strings with only delimiters
      if charAt val 1 = Char.ofNat 0 ∨ OnlyDelimiter str delim = true then
        .ok (arr ++ [some []])
      else
        .ok (arr ++ [some val])
    else
      -- Is there anything after the last delimiter?
      let num := if itr ≠ last ∧ charAt val last ≠ delim then (num + 1) % 2 ^ 32 else num
      -- Pre-allocate an array with the number of found delimiters
      let arr : List Element := List.replicate num none
      -- Process the string again, this time slicing the actual elements
      match explodeSlice val delim empty str arr 0 0 0 with
      | .error e => .error e
      | .ok (arr, itr, last, num) =>
        -- Is there anything after the last delimiter?
        if itr ≠ last ∧ charAt val last ≠ delim then
          arraySet arr num ((val.drop last).take (itr - last))
        else .ok arr

/-- The non-empty maximal substrings of `s` that contain no `d`, in order. -/
def segments (d : Char) (s : List Char) : List (List Char) :=
  (s.splitOn d).filter fun seg => seg ≠ []

/-! ## `Levenshtein_n` -/

/-- Cost of putting `y` where `x` stands: nothing when they agree, one
substitution otherwise. -/
def substCost (x y : Nat) : Nat := if x = y then 0 else 1

/-- One row of the edit distance: distances from `x :: xs` to the suffixes of
the second string, given the distances `prev` from `xs`. -/
def editRow (x : Nat) (prev : List Nat → Nat) : List Nat → Nat
  | [] => prev [] + 1
  | y :: ys =>
    min (min (prev (y :: ys) + 1) (editRow x prev ys + 1)) (prev ys + substCost x y)

/-- Levenshtein edit distance of two byte strings, by the usual recurrence:
the length of the other string when one is empty, else the least of a
deletion, an insertion and a substitution (free when the characters agree). -/
def editDistance : List Nat → List Nat → Nat
  | [] => fun ys => ys.length
  | x :: xs => editRow x (editDistance xs)

/-- The bytes of the string of length `n` at address `p` of the memory `mem`. -/
def bytes (mem : Nat → Nat) (p n : Nat) : List Nat :=
  (List.range n).map fun i => mem (p + i)

/-- Store `v` at `index` of an array of `size_t`. -/
def store (cache : Nat → Nat) (index v : Nat) : Nat → Nat :=
  fun k => if k = index then v else cache k

/-- Body of the inner loop of `Levenshtein_n` at `index`, on the state
`(cache, distance, result)`. -/
def levStep (mem : Nat → Nat) (a code : Nat) (st : (Nat → Nat) × Nat × Nat) (index : Nat) :
    (Nat → Nat) × Nat × Nat :=
  let cache := st.1
  let distance := st.2.1
  let result := st.2.2
  let b_distance := if code = mem (a + index) then distance else distance + 1
  let distance := cache index
  let result :=
    if distance > result then
      if b_distance > result then result + 1 else b_distance
    else
      if b_distance > distance then distance + 1 else b_distance
  (store cache index result, distance, result)

/-- Body of the outer loop of `Levenshtein_n` at `b_index`, on the state
`(cache, result)`: the inner loop runs `index` from 0 (`SIZE_MAX` incremented)
up to `a_length`. -/
def levRow (mem : Nat → Nat) (a a_length b : Nat) (st : (Nat → Nat) × Nat) (b_index : Nat) :
    (Nat → Nat) × Nat :=
  let code := mem (b + b_index)
  let distance := b_index
  let result := b_index
  let st2 := (List.range a_length).foldl (levStep mem a code) (st.1, distance, result)
  (st2.1, st2.2.2)

/-- `Levenshtein_n(a, a_length, b, b_length)`: `a` and `b` are addresses in the
memory `mem`.  The values of type `size_t` never exceed the longer length, so
they are natural numbers here; `calloc` is taken to succeed. -/
def Levenshtein_n (mem : Nat → Nat) (a a_length b b_length : Nat) : Nat :=
  -- Shortcut optimizations / degenerate cases.
  if a = b then 0
  else if a_length = 0 then b_length
  else if b_length = 0 then a_length
  else
    -- initialize the vector.
    let cache := (List.range a_length).foldl (fun cache index => store cache index (index + 1))
      (fun _ => 0)
    -- Loop
    ((List.range b_length).foldl (levRow mem a a_length b) (cache, 0)).2

/-- One single-character edit of a byte string: an insertion, a deletion or a
substitution at any place. -/
inductive EditStep : List Nat → List Nat → Prop where
  | insertion (l r : List Nat) (c : Nat) : EditStep (l ++ r) (l ++ c :: r)
  | deletion (l r : List Nat) (c : Nat) : EditStep (l ++ c :: r) (l ++ r)
  | substitution (l r : List Nat) (c d : Nat) : EditStep (l ++ c :: r) (l ++ d :: r)

/-- `EditsIn n a b`: `n` single-character edits, one after the other, turn `a`
into `b`. -/
inductive EditsIn : Nat → List Nat → List Nat → Prop where
  | done (a : List Nat) : EditsIn 0 a a
  | step {n : Nat} {a b c : List Nat} : EditsIn n a b → EditStep b c → EditsIn (n + 1) a c

/-- State of the inner loop of `Levenshtein_n` after `i` steps of row `j`:
the first `i` cells hold the new row, the others the old row `cache0`. -/
def InnerInv (mem : Nat → Nat) (a b j : Nat) (cache0 : Nat → Nat) (i : Nat)
    (st : (Nat → Nat) × Nat × Nat) : Prop :=
  (∀ k, k < i → st.1 k = editDistance (bytes mem a (k + 1)) (bytes mem b (j + 1))) ∧
    (∀ k, i ≤ k → st.1 k = cache0 k) ∧
    st.2.1 = editDistance (bytes mem a i) (bytes mem b j) ∧
    st.2.2 = if i = 0 then j else editDistance (bytes mem a i) (bytes mem b (j + 1))

/-- A sample memory: "kitten" at address 0, "sitting" at address 16, zero
elsewhere. -/
def memKS (addr : Nat) : Nat :=
  (([107, 105, 116, 116, 101, 110, 0, 0, 0, 0, 0, 0, 0, 0, 0, 0,
    115, 105, 116, 116, 105, 110, 103] : List Nat).getD addr 0)

/-! ## `SqFirstChar`, `SqLastChar` and their registrations -/

/-- The test both search loops apply to a character:
`(Fn(*itr) == 0) == Neg`.  `Fn` is the `<cctype>` predicate applied to the
character, a zero answer meaning "not in the class". -/
def charTest (Fn : Char → Int) (Neg : Bool) (c : Char) : Bool :=
  (decide (Fn c = 0)) == Neg

/-- The loop of `SqFirstChar` over the rest of the C string, `itr` being the
index of its first character. -/
def firstCharLoop (Fn : Char → Int) (Neg : Bool) : List Char → Nat → Option Nat
  | [], _ => none
  | c :: rest, itr =>
    -- Call the predicate with the current character
    if charTest Fn Neg c then
      -- This character passed our test, push its position
      some itr
    else firstCharLoop Fn Neg rest (itr + 1)

/-- `SqFirstChar< Fn, Neg >(s)` on the string value `val` (`s.mPtr` is its
NUL-terminated buffer, `s.mLen` its length); `none` is the null object. -/
def SqFirstChar (Fn : Char → Int) (Neg : Bool) (val : List Char) : Option Nat :=
  -- See if we actually have something to search for
  if val.length ≠ 0 then firstCharLoop Fn Neg (cstr val) 0 else none

/-- The loop of `SqLastChar` with `n` characters left to visit: `itr` is at
index `n - 1`, and the loop ends once `itr` is below `s.mPtr`. -/
def lastCharLoop (Fn : Char → Int) (Neg : Bool) (val : List Char) : Nat → Option Nat
  | 0 => none
  | itr + 1 =>
    -- Call the predicate with the current character
    if charTest Fn Neg (charAt val itr) then
      -- This character passed our test, push its position
      some itr
    else lastCharLoop Fn Neg val itr

/-- `SqLastChar< Fn, Neg >(s)` on the string value `val`; `none` is the null
object. -/
def SqLastChar (Fn : Char → Int) (Neg : Bool) (val : List Char) : Option Nat :=
  -- See if we actually have something to search for
  if val.length ≠ 0 then lastCharLoop Fn Neg val val.length else none

/-- The `<cctype>` predicates the searches are instantiated with. -/
inductive CType where
  | isspace | isprint | iscntrl | isupper | islower | isalpha
  | isdigit | ispunct | isxdigit | isalnum | isgraph | isblank
  deriving DecidableEq, Repr

/-- A function pointer handed to `FmtFunc`: which template, and its two
arguments. -/
inductive CharSearch where
  | SqFirstChar (Fn : CType) (Neg : Bool)
  | SqLastChar (Fn : CType) (Neg : Bool)
  deriving DecidableEq, Repr

/-- The part of `Register_String` that binds the character searches, in the
order of the source. -/
def Register_String : List (String × CharSearch) :=
  [ ("FirstSpace", .SqFirstChar .isspace false),
    ("FirstPrint", .SqFirstChar .isprint false),
    ("FirstCntrl", .SqFirstChar .iscntrl false),
    ("FirstUpper", .SqFirstChar .isupper false),
    ("FirstLower", .SqFirstChar .islower false),
    ("FirstAlpha", .SqFirstChar .isalpha false),
    ("FirstDigit", .SqFirstChar .isdigit false),
    ("FirstPunct", .SqFirstChar .ispunct false),
    ("FirstXdigit", .SqFirstChar .isxdigit false),
    ("FirstAlnum", .SqFirstChar .isalnum false),
    ("FirstGraph", .SqFirstChar .isgraph false),
    ("FirstBlank", .SqFirstChar .isblank false),
    ("FirstNotSpace", .SqFirstChar .isspace true),
    ("FirstNotPrint", .SqFirstChar .isprint true),
    ("FirstNotCntrl", .SqFirstChar .iscntrl true),
    ("FirstNotUpper", .SqFirstChar .isupper true),
    ("FirstNotLower", .SqFirstChar .islower true),
    ("FirstNotAlpha", .SqFirstChar .isalpha true),
    ("FirstNotDigit", .SqFirstChar .isdigit true),
    ("FirstNotPunct", .SqFirstChar .ispunct true),
    ("FirstNotXdigit", .SqFirstChar .isxdigit true),
    ("FirstNotAlnum", .SqFirstChar .isalnum true),
    ("FirstNotGraph", .SqFirstChar .isgraph true),
    ("FirstNotBlank", .SqFirstChar .isblank true),
    ("LastSpace", .SqLastChar .isspace false),
    ("LastPrint", .SqLastChar .isprint false),
    ("LastCntrl", .SqLastChar .iscntrl false),
    ("LastUpper", .SqLastChar .isupper false),
    ("LastLower", .SqLastChar .islower false),
    ("LastAlpha", .SqLastChar .isalpha false),
    ("LastDigit", .SqLastChar .isdigit false),
    ("LastPunct", .SqLastChar .ispunct false),
    ("LastXdigit", .SqLastChar .isxdigit false),
    ("LastAlnum", .SqLastChar .isalnum false),
    ("LastGraph", .SqLastChar .isgraph false),
    ("LastBlank", .SqLastChar .isblank false),
    ("LastNotSpace", .SqLastChar .isspace true),
    ("LastNotPrint", .SqLastChar .isprint true),
    ("LastNotCntrl", .SqLastChar .iscntrl true),
    ("LastNotUpper", .SqLastChar .isupper true),
    ("LastNotLower", .SqLastChar .islower true),
    ("LastNotAlpha", .SqLastChar .isalpha true),
    ("LastNotDigit", .SqLastChar .isdigit true),
    ("LastNotPunct", .SqLastChar .ispunct true),
    ("LastNotXdigit", .SqLastChar .isxdigit true),
    ("LastNotAlnum", .SqLastChar .isalnum true),
    ("LastNotGraph", .SqLastChar .isgraph true),
    ("LastNotBlank", .SqLastChar .isblank true) ]

/-- Running a bound function pointer on a string, `ctype` giving the
`<cctype>` predicates. -/
def CharSearch.run (ctype : CType → Char → Int) : CharSearch → List Char → Option Nat
  | .SqFirstChar Fn Neg, val => SqMod.SqFirstChar (ctype Fn) Neg val
  | .SqLastChar Fn Neg, val => SqMod.SqLastChar (ctype Fn) Neg val

/-- Calling the script function `name` on the string `val`: the function
bound under that name is run; `none` when no such function is bound. -/
def callString (ctype : CType → Char → Int) (name : String) (val : List Char) :
    Option (Option Nat) :=
  (Register_String.lookup name).map fun f => f.run ctype val

/-- The class name as it appears in the script function names. -/
def CType.className : CType → String
  | .isspace => "Space"
  | .isprint => "Print"
  | .iscntrl => "Cntrl"
  | .isupper => "Upper"
  | .islower => "Lower"
  | .isalpha => "Alpha"
  | .isdigit => "Digit"
  | .ispunct => "Punct"
  | .isxdigit => "Xdigit"
  | .isalnum => "Alnum"
  | .isgraph => "Graph"
  | .isblank => "Blank"

/-- The answer `r` is the smallest index below `n` that satisfies `q`, and
null exactly when no index below `n` does. -/
def SmallestOrNull (q : Nat → Prop) (n : Nat) (r : Option Nat) : Prop :=
  (r = none ↔ ∀ i, i < n → ¬ q i) ∧
    ∀ i, r = some i ↔ (i < n ∧ q i ∧ ∀ j, j < i → ¬ q j)

/-- The answer `r` is the largest index below `n` that satisfies `q`, and
null exactly when no index below `n` does. -/
def LargestOrNull (q : Nat → Prop) (n : Nat) (r : Option Nat) : Prop :=
  (r = none ↔ ∀ i, i < n → ¬ q i) ∧
    ∀ i, r = some i ↔ (i < n ∧ q i ∧ ∀ j, i < j → j < n → ¬ q j)

/-- A sample reading of the `<cctype>` predicates (the "C" locale on ASCII). -/
def ctypeC : CType → Char → Int
  | .isspace, c => if c.toNat = 32 ∨ (9 ≤ c.toNat ∧ c.toNat ≤ 13) then 1 else 0
  | .isprint, c => if 32 ≤ c.toNat ∧ c.toNat ≤ 126 then 1 else 0
  | .iscntrl, c => if c.toNat < 32 ∨ c.toNat = 127 then 1 else 0
  | .isupper, c => if 65 ≤ c.toNat ∧ c.toNat ≤ 90 then 1 else 0
  | .islower, c => if 97 ≤ c.toNat ∧ c.toNat ≤ 122 then 1 else 0
  | .isalpha, c => if (65 ≤ c.toNat ∧ c.toNat ≤ 90) ∨ (97 ≤ c.toNat ∧ c.toNat ≤ 122) then 1 else 0
  | .isdigit, c => if 48 ≤ c.toNat ∧ c.toNat ≤ 57 then 1 else 0
  | .ispunct, c =>
    if (33 ≤ c.toNat ∧ c.toNat ≤ 47) ∨ (58 ≤ c.toNat ∧ c.toNat ≤ 64) ∨
        (91 ≤ c.toNat ∧ c.toNat ≤ 96) ∨ (123 ≤ c.toNat ∧ c.toNat ≤ 126) then 1 else 0
  | .isxdigit, c =>
    if (48 ≤ c.toNat ∧ c.toNat ≤ 57) ∨ (65 ≤ c.toNat ∧ c.toNat ≤ 70) ∨
        (97 ≤ c.toNat ∧ c.toNat ≤ 102) then 1 else 0
  | .isalnum, c =>
    if (48 ≤ c.toNat ∧ c.toNat ≤ 57) ∨ (65 ≤ c.toNat ∧ c.toNat ≤ 90) ∨
        (97 ≤ c.toNat ∧ c.toNat ≤ 122) then 1 else 0
  | .isgraph, c => if 33 ≤ c.toNat ∧ c.toNat ≤ 126 then 1 else 0
  | .isblank, c => if c.toNat = 32 ∨ c.toNat = 9 then 1 else 0

end SqMod

/-!
# `fmt::join` (`vendor/Fmt/test/ranges-test.cc`)
-/

namespace Fmt

/-- Modelled from the spec: formatting of `fmt::join(range, sep)` (the fmt
headers are absent, only the test of the ranges is at hand): the first element
is written, then for every further element the separator and the element;
`fmt` is the formatter of one element. -/
def join {α : Type} (fmt : α → String) (range : List α) (sep : String) : String :=
  match range with
  | [] => ""
  | x :: rest => rest.foldl (fun out y => out ++ sep ++ fmt y) (fmt x)

end Fmt

namespace Sqrat

/-! # Theorems -/

/-! ## Slot maps -/

theorem getSlot_setSlot_same (s : Slots) (k : String) (v : SQObj) :
    getSlot (setSlot s k v) k = some v := by
  induction s with
  | nil => simp [setSlot, getSlot]
  | cons p rest ih =>
    obtain ⟨k0, v0⟩ := p
    by_cases h : k0 = k
    · simp [setSlot, getSlot, h]
    · simp [setSlot, getSlot, h, ih]

theorem getSlot_setSlot_other (s : Slots) (k k' : String) (v : SQObj) (hne : k' ≠ k) :
    getSlot (setSlot s k v) k' = getSlot s k' := by
  induction s with
  | nil => simp [setSlot, getSlot, Ne.symm hne]
  | cons p rest ih =>
    obtain ⟨k0, v0⟩ := p
    by_cases h : k0 = k
    · subst h
      simp [setSlot, getSlot, hne, Ne.symm hne]
    · simp [setSlot, getSlot, h, ih]

theorem slots_withSlots (c : HeapObj) (s : Slots) : (c.withSlots s).slots = s := by
  cases c <;> rfl

/-! ## Sequencing and heap cells -/

@[simp]
theorem andThen_some {α β : Type} (a : α) (f : α → Option β) :
    andThen (some a) f = f a := rfl

@[simp]
theorem andThen_none {α β : Type} (f : α → Option β) :
    andThen (none : Option α) f = none := rfl

theorem heap_set_len {α : Type} (h : List α) (x y : α) (rest : List α) :
    (h ++ x :: rest).set h.length y = h ++ y :: rest := by
  induction h with
  | nil => simp
  | cons a t ih => simp [ih]

theorem heap_get_len {α : Type} (h : List α) (x : α) (rest : List α) :
    (h ++ x :: rest)[h.length]? = some x := by
  rw [List.getElem?_append_right (le_refl _)]; simp

theorem heap_get_len_add {α : Type} (h l : List α) (i : Nat) :
    (h ++ l)[h.length + i]? = l[i]? := by
  rw [List.getElem?_append_right (by omega)]; simp

theorem heap3_get1 {α : Type} (h : List α) (a b c : α) :
    (h ++ [a, b, c])[h.length + 1]? = some b := by
  rw [heap_get_len_add]; rfl

theorem heap3_get2 {α : Type} (h : List α) (a b c : α) :
    (h ++ [a, b, c])[h.length + 2]? = some c := by
  rw [heap_get_len_add]; rfl

theorem heap_lt_of_get {α : Type} (h : List α) (r : Nat) (c : α) (hr : h[r]? = some c) :
    r < h.length := by
  by_contra hn
  have : h[r]? = none := List.getElem?_eq_none (by omega)
  simp [this] at hr

theorem heap_get_old {α : Type} (h l : List α) (r : Nat) (c : α) (hr : h[r]? = some c) :
    (h ++ l)[r]? = some c := by
  rw [List.getElem?_append_left (heap_lt_of_get h r c hr)]; exact hr

theorem heap_get_below {α : Type} (h l : List α) (r : Nat) (hr : r < h.length) :
    (h ++ l)[r]? = h[r]? :=
  List.getElem?_append_left hr

theorem heap_get_set_same {α : Type} (h : List α) (r : Nat) (c x : α) (hr : h[r]? = some c) :
    (h.set r x)[r]? = some x := by
  have hlt := heap_lt_of_get h r c hr
  simp [List.getElem?_set, hlt]

theorem heap_get_set_other {α : Type} (h : List α) (r r' : Nat) (x : α) (hne : r' ≠ r) :
    (h.set r x)[r']? = h[r']? := by
  simp [List.getElem?_set, Ne.symm hne]

/-! ## `BindAccessor` -/

theorem BindAccessor_eq (vm : VM) (name : String) (var : List Nat) (varSize : Nat)
    (func : SQFUNCTION) (o : SQObj) (r : Nat) (cell : HeapObj) (ho : o.ref? = some r)
    (h : vm.heap[r]? = some cell) :
    BindAccessor vm name var varSize func o =
      some { vm with
        heap := vm.heap.set r
          (cell.withSlots (setSlot cell.slots name (accessorClosure name var varSize func))) } := by
  simp [BindAccessor, sq_pushobject, sq_pushstring, sq_newuserdata, sq_newclosure,
    sq_setnativeclosurename, sq_newslot, sq_pop, stackGet, SQFree.ofList, ho, h, accessorClosure]

theorem slotsOf_some (vm : VM) (o : SQObj) (slots : Slots) (h : vm.slotsOf o = some slots) :
    ∃ r cell, o.ref? = some r ∧ vm.heap[r]? = some cell ∧ cell.slots = slots := by
  unfold VM.slotsOf at h
  cases ho : o.ref? with
  | none => simp [ho] at h
  | some r =>
    cases hc : vm.heap[r]? with
    | none => simp [ho, hc] at h
    | some cell =>
      simp [ho, hc] at h
      exact ⟨r, cell, rfl, hc, h⟩

/-- C4: `BindAccessor` on a live accessor table succeeds; afterwards the table
maps `name` to the accessor closure just built around `func`, whatever was
stored under `name` before, and every other name to what it held before. -/
theorem BindAccessor_last_registration_wins (vm : VM) (name : String) (var : List Nat)
    (varSize : Nat) (func : SQFUNCTION) (table : SQObj) (slots : Slots)
    (h : vm.slotsOf table = some slots) :
    ∃ vm2, BindAccessor vm name var varSize func table = some vm2 ∧
      vm2.rawget table name = some (accessorClosure name var varSize func) ∧
      ∀ k, k ≠ name → vm2.rawget table k = vm.rawget table k := by
  obtain ⟨r, cell, ho, hc, hs⟩ := slotsOf_some vm table slots h
  refine ⟨_, BindAccessor_eq vm name var varSize func table r cell ho hc, ?_, ?_⟩
  · simp [VM.rawget, VM.slotsOf, ho, heap_get_set_same _ r cell _ hc, slots_withSlots,
      getSlot_setSlot_same]
  · intro k hk
    simp [VM.rawget, VM.slotsOf, ho, hc, heap_get_set_same _ r cell _ hc, slots_withSlots,
      getSlot_setSlot_other _ _ _ _ hk]

/-- Witness of C4 on the root table of the sample runtime. -/
theorem BindAccessor_last_registration_wins_witness :
    ∃ vm2, BindAccessor vm0 "x" [8] 1 "sqDefaultGet" (.table 0) = some vm2 ∧
      vm2.rawget (.table 0) "x" = some (accessorClosure "x" [8] 1 "sqDefaultGet") ∧
      ∀ k, k ≠ "x" → vm2.rawget (.table 0) k = vm0.rawget (.table 0) k :=
  BindAccessor_last_registration_wins vm0 "x" [8] 1 "sqDefaultGet" (.table 0) [] (by rfl)

/-! ## Class data lookup -/

theorem getClassData_try_emplace (classes : List (String × ClassData)) (className : String)
    (cd : ClassData) (vm : VM) (hcls : vm.classes = try_emplace classes className cd)
    (hfree : classes.lookup className = none)
    (hnone : (classes.find? fun e => e.2.type = cd.type) = none) :
    getClassData vm cd.type = some cd := by
  simp [getClassData, hcls, try_emplace, hfree, List.find?_append, hnone]

theorem find_none_of_hasClassData (v : VM) (C : Nat) (h : hasClassData v C = false) :
    (v.classes.find? fun e => e.2.type = C) = none := by
  simpa [hasClassData, getClassData] using h

/-! ## `InitClass`, `InitDerivedClass` and the constructors -/

set_option maxHeartbeats 1000000 in
theorem InitClass_eval (A : Allocator) (vm : VM) (h : List HeapObj) (cd : ClassData)
    (b t : Option Nat) (slots : Slots)
    (hh : vm.heap = h ++ [.cls b t slots]) (hc : cd.classObj = .cls h.length) :
    InitClass A vm cd = some
      ({ vm with
          heap := h ++ [.cls b cd.staticPtr
            (initMembers A cd.type slots (h.length + 1) (h.length + 2)), .table [], .table []] },
       { cd with
          instances := some [], setTable := .table (h.length + 1),
          getTable := .table (h.length + 2) }) := by
  simp [hh, hc, initMembers, ClassData.staticPtr,
    sq_getstackobj, stackGet, sq_pop, InitClass,
    sq_pushobject, sq_pushstring, sq_newclosure, sq_setnativeclosurename, sq_newslot,
    sq_newtable, sq_settypetag, SQObj.ref?,
    HeapObj.withSlots, HeapObj.slots, SQFree.ofList, heap_set_len, heap_get_len_add,
    heap_get_len, -List.getElem?_eq_getElem, List.getElem?_cons_zero, List.getElem?_cons_succ]

set_option maxHeartbeats 1000000 in
theorem InitDerivedClass_eval (A : Allocator) (vm : VM) (h : List HeapObj) (cd bd : ClassData)
    (b t : Option Nat) (slots S G : Slots) (s g : Nat)
    (hh : vm.heap = h ++ [.cls b t slots]) (hc : cd.classObj = .cls h.length)
    (hs : bd.setTable = .table s) (hS : h[s]? = some (.table S))
    (hg : bd.getTable = .table g) (hG : h[g]? = some (.table G)) :
    InitDerivedClass A vm cd bd = some
      ({ vm with
          heap := h ++ [.cls b cd.staticPtr
            (initMembers A cd.type slots (h.length + 1) (h.length + 2)), .table S, .table G] },
       { cd with
          instances := some [], setTable := .table (h.length + 1),
          getTable := .table (h.length + 2) }) := by
  simp [hh, hc, hs, hg, initMembers, ClassData.staticPtr,
    fun l => heap_get_old h l s _ hS, fun l => heap_get_old h l g _ hG,
    sq_getstackobj, stackGet, sq_pop, InitDerivedClass, sq_clone, sq_remove,
    sq_pushobject, sq_pushstring, sq_newclosure, sq_setnativeclosurename, sq_newslot,
    sq_newtable, sq_settypetag, SQObj.ref?,
    HeapObj.withSlots, HeapObj.slots, SQFree.ofList, heap_set_len, heap_get_len_add,
    heap_get_len, -List.getElem?_eq_getElem, List.getElem?_cons_zero, List.getElem?_cons_succ]

theorem Class_ctor_fresh (C : Nat) (A : Allocator) (v : VM) (className : String)
    (h1 : hasClassData v C = false) (h2 : getStaticClassData v C = false) :
    Class.ctor C A v className true = some
      { vm := { v with
          heap := v.heap ++ [.cls none (some C)
            (initMembers A C [] (v.heap.length + 1) (v.heap.length + 2)), .table [], .table []]
          classes := try_emplace v.classes className
            (rootClassData C A className v.heap.length) },
        thrown := none } := by
  have hI := InitClass_eval A
    { v with heap := v.heap ++ [.cls none none []] } v.heap
    { ClassData.new C with
      staticData := some { copyFunc := A.Copy, className := className, baseClass := none },
      classObj := .cls v.heap.length } none none [] rfl rfl
  simp [Class.ctor, h1, h2, sq_newclass, sq_getstackobj, stackGet, sq_pop, sq_pushobject,
    -List.getElem?_eq_getElem, List.getElem?_cons_zero]
  simp [ClassData.new] at hI
  simp [ClassData.new, hI, rootClassData, ClassData.staticPtr]

theorem Class_ctor_skip (C : Nat) (A : Allocator) (v : VM) (className : String) :
    Class.ctor C A v className false = some { vm := v, thrown := none } := by
  simp [Class.ctor]

theorem Derived_ctor_fresh (C B : Nat) (A : Allocator) (v : VM) (className : String)
    (bd : ClassData) (cb s g : Nat) (bb bt : Option Nat) (bslots S G : Slots)
    (h1 : hasClassData v C = false) (h2 : getStaticClassData v C = false)
    (hB : getClassData v B = some bd)
    (hc : bd.classObj = .cls cb) (hcb : v.heap[cb]? = some (.cls bb bt bslots))
    (hs : bd.setTable = .table s) (hS : v.heap[s]? = some (.table S))
    (hg : bd.getTable = .table g) (hG : v.heap[g]? = some (.table G)) :
    DerivedClass.ctor C B A v className = some
      { vm := { v with
          heap := v.heap ++ [.cls (some cb) (some C)
            (initMembers A C bslots (v.heap.length + 1) (v.heap.length + 2)), .table S, .table G]
          classes := try_emplace v.classes className
            (derivedClassData C A className bd v.heap.length) },
        thrown := none } := by
  have hI := InitDerivedClass_eval A
    { v with heap := v.heap ++ [.cls (some cb) none bslots] } v.heap
    { ClassData.new C with
      staticData := some { copyFunc := A.Copy, className := className, baseClass := bd.staticPtr },
      classObj := .cls v.heap.length } bd (some cb) none bslots S G s g rfl rfl hs hS hg hG
  simp [DerivedClass.ctor, Class_ctor_skip, h1, h2, hB, hc, hcb, sq_newclass, sq_getstackobj,
    stackGet, sq_pop, sq_pushobject, -List.getElem?_eq_getElem, List.getElem?_cons_zero]
  simp [ClassData.new, ClassData.staticPtr] at hI
  simp [ClassData.new, hI, derivedClassData, ClassData.staticPtr]

/-- C8: registering a root type that has no class data yet, under a free class
name, succeeds and stores a descriptor whose class object, Set-table and
Get-table are three cells beyond the old heap, both tables empty, the class
without base, whose name is the given name and whose base link is null; the
old heap cells are untouched. -/
theorem Class_ctor_root_descriptor (C : Nat) (A : Allocator) (v : VM) (className : String)
    (h1 : hasClassData v C = false) (h2 : getStaticClassData v C = false)
    (h3 : v.classes.lookup className = none) :
    ∃ o cd, Class.ctor C A v className true = some o ∧ o.thrown = none ∧
      getClassData o.vm C = some cd ∧
      cd.classObj = .cls v.heap.length ∧
      cd.setTable = .table (v.heap.length + 1) ∧
      cd.getTable = .table (v.heap.length + 2) ∧
      (∃ members, o.vm.heap[v.heap.length]? = some (.cls none (some C) members)) ∧
      o.vm.slotsOf cd.setTable = some [] ∧
      o.vm.slotsOf cd.getTable = some [] ∧
      (∀ r, r < v.heap.length → o.vm.heap[r]? = v.heap[r]?) ∧
      cd.staticData = some { copyFunc := A.Copy, className := className, baseClass := none } := by
  refine ⟨_, rootClassData C A className v.heap.length, Class_ctor_fresh C A v className h1 h2,
    rfl, ?_, rfl, rfl, rfl,
    ⟨initMembers A C [] (v.heap.length + 1) (v.heap.length + 2), ?_⟩, ?_, ?_, ?_, rfl⟩
  · exact getClassData_try_emplace v.classes className (rootClassData C A className v.heap.length)
      _ rfl h3 (find_none_of_hasClassData v C h1)
  · exact heap_get_len _ _ _
  · simp [VM.slotsOf, rootClassData, SQObj.ref?, heap3_get1, HeapObj.slots,
      -List.getElem?_eq_getElem]
  · simp [VM.slotsOf, rootClassData, SQObj.ref?, heap3_get2, HeapObj.slots,
      -List.getElem?_eq_getElem]
  · intro r hr
    exact heap_get_below _ _ r hr

/-- Witness of C8: registering native type 1 as "Base" in the sample runtime. -/
theorem Class_ctor_root_descriptor_witness :
    ∃ o cd, Class.ctor 1 alloc0 vm0 "Base" true = some o ∧ o.thrown = none ∧
      getClassData o.vm 1 = some cd ∧
      cd.classObj = .cls vm0.heap.length ∧
      cd.setTable = .table (vm0.heap.length + 1) ∧
      cd.getTable = .table (vm0.heap.length + 2) ∧
      (∃ members, o.vm.heap[vm0.heap.length]? = some (.cls none (some 1) members)) ∧
      o.vm.slotsOf cd.setTable = some [] ∧
      o.vm.slotsOf cd.getTable = some [] ∧
      (∀ r, r < vm0.heap.length → o.vm.heap[r]? = vm0.heap[r]?) ∧
      cd.staticData = some { copyFunc := alloc0.Copy, className := "Base", baseClass := none } :=
  Class_ctor_root_descriptor 1 alloc0 vm0 "Base" (by rfl) (by rfl) (by rfl)

theorem Derived_ctor_snapshot_facts (C B : Nat) (A : Allocator) (v : VM)
    (className : String) (bd : ClassData) (cb s g : Nat) (bb bt : Option Nat)
    (bslots S G : Slots)
    (h1 : hasClassData v C = false) (h2 : getStaticClassData v C = false)
    (h3 : v.classes.lookup className = none)
    (hB : getClassData v B = some bd)
    (hc : bd.classObj = .cls cb) (hcb : v.heap[cb]? = some (.cls bb bt bslots))
    (hs : bd.setTable = .table s) (hS : v.heap[s]? = some (.table S))
    (hg : bd.getTable = .table g) (hG : v.heap[g]? = some (.table G)) :
    ∃ o cd, DerivedClass.ctor C B A v className = some o ∧ o.thrown = none ∧
      getClassData o.vm C = some cd ∧
      o.vm.slotsOf cd.setTable = some S ∧ o.vm.slotsOf cd.getTable = some G ∧
      cd.setTable = .table (v.heap.length + 1) ∧ cd.getTable = .table (v.heap.length + 2) ∧
      v.slotsOf cd.setTable = none ∧ v.slotsOf cd.getTable = none ∧
      cd.setTable ≠ bd.setTable ∧ cd.getTable ≠ bd.getTable ∧
      o.vm.slotsOf bd.setTable = some S ∧ o.vm.slotsOf bd.getTable = some G := by
  have hsl := heap_lt_of_get _ _ _ hS
  have hgl := heap_lt_of_get _ _ _ hG
  refine ⟨_, derivedClassData C A className bd v.heap.length,
    Derived_ctor_fresh C B A v className bd cb s g bb bt bslots S G h1 h2 hB hc hcb hs hS hg hG,
    rfl, ?_, ?_, ?_, rfl, rfl, ?_, ?_, ?_, ?_, ?_, ?_⟩
  · exact getClassData_try_emplace v.classes className
      (derivedClassData C A className bd v.heap.length) _ rfl h3
      (find_none_of_hasClassData v C h1)
  · simp [VM.slotsOf, derivedClassData, SQObj.ref?, heap3_get1, HeapObj.slots,
      -List.getElem?_eq_getElem]
  · simp [VM.slotsOf, derivedClassData, SQObj.ref?, heap3_get2, HeapObj.slots,
      -List.getElem?_eq_getElem]
  · simp [VM.slotsOf, derivedClassData, SQObj.ref?]
  · simp [VM.slotsOf, derivedClassData, SQObj.ref?]
  · simp only [derivedClassData, hs]
    intro h
    injection h with h
    omega
  · simp only [derivedClassData, hg]
    intro h
    injection h with h
    omega
  · simp [VM.slotsOf, hs, SQObj.ref?, heap_get_old _ _ s _ hS, HeapObj.slots,
      -List.getElem?_eq_getElem]
  · simp [VM.slotsOf, hg, SQObj.ref?, heap_get_old _ _ g _ hG, HeapObj.slots,
      -List.getElem?_eq_getElem]

/-- C3: deriving `C` from a registered base `B` whose Set-table holds `S` and
whose Get-table holds `G` succeeds and stores a descriptor whose Set-table
holds exactly `S` and whose Get-table exactly `G`, in two new heap cells
distinct from the base's tables, which still hold `S` and `G`. -/
theorem DerivedClass_tables_are_snapshot (C B : Nat) (A : Allocator) (v : VM)
    (className : String) (bd : ClassData) (cb s g : Nat) (bb bt : Option Nat)
    (bslots S G : Slots)
    (h1 : hasClassData v C = false) (h2 : getStaticClassData v C = false)
    (h3 : v.classes.lookup className = none)
    (hB : getClassData v B = some bd)
    (hc : bd.classObj = .cls cb) (hcb : v.heap[cb]? = some (.cls bb bt bslots))
    (hs : bd.setTable = .table s) (hS : v.heap[s]? = some (.table S))
    (hg : bd.getTable = .table g) (hG : v.heap[g]? = some (.table G)) :
    ∃ o cd, DerivedClass.ctor C B A v className = some o ∧ o.thrown = none ∧
      getClassData o.vm C = some cd ∧
      o.vm.slotsOf cd.setTable = some S ∧ o.vm.slotsOf cd.getTable = some G ∧
      cd.setTable = .table (v.heap.length + 1) ∧ cd.getTable = .table (v.heap.length + 2) ∧
      v.slotsOf cd.setTable = none ∧ v.slotsOf cd.getTable = none ∧
      cd.setTable ≠ bd.setTable ∧ cd.getTable ≠ bd.getTable ∧
      o.vm.slotsOf bd.setTable = some S ∧ o.vm.slotsOf bd.getTable = some G :=
  Derived_ctor_snapshot_facts C B A v className bd cb s g bb bt bslots S G
    h1 h2 h3 hB hc hcb hs hS hg hG

/-- Witness of C3: deriving native type 2 from "Base" after "Base" got the
getter "x". -/
theorem DerivedClass_tables_are_snapshot_witness :
    ∃ o cd, DerivedClass.ctor 2 1 alloc0 vmBaseX "Derived" = some o ∧ o.thrown = none ∧
      getClassData o.vm 2 = some cd ∧
      o.vm.slotsOf cd.setTable = some [] ∧
      o.vm.slotsOf cd.getTable = some [("x", accessorClosure "x" [8] 1 "sqDefaultGet")] ∧
      cd.setTable = .table (vmBaseX.heap.length + 1) ∧
      cd.getTable = .table (vmBaseX.heap.length + 2) ∧
      vmBaseX.slotsOf cd.setTable = none ∧ vmBaseX.slotsOf cd.getTable = none ∧
      cd.setTable ≠ cdBase.setTable ∧ cd.getTable ≠ cdBase.getTable ∧
      o.vm.slotsOf cdBase.setTable = some [] ∧
      o.vm.slotsOf cdBase.getTable = some [("x", accessorClosure "x" [8] 1 "sqDefaultGet")] :=
  DerivedClass_tables_are_snapshot 2 1 alloc0 vmBaseX "Derived" cdBase 1 2 3 none (some 1)
    (initMembers alloc0 1 [] 2 3) [] [("x", accessorClosure "x" [8] 1 "sqDefaultGet")]
    (by rfl) (by rfl) (by rfl) (by rfl) (by rfl) (by rfl) (by rfl) (by rfl) (by rfl) (by rfl)

theorem BindAccessor_frame (vm vm2 : VM) (name : String) (var : List Nat) (varSize : Nat)
    (func : SQFUNCTION) (o u : SQObj) (r r' : Nat) (cell : HeapObj) (ho : o.ref? = some r)
    (h : vm.heap[r]? = some cell) (hu : u.ref? = some r') (hne : r' ≠ r)
    (hrun : BindAccessor vm name var varSize func o = some vm2) :
    vm2.slotsOf u = vm.slotsOf u := by
  rw [BindAccessor_eq vm name var varSize func o r cell ho h] at hrun
  injection hrun with hrun
  subst hrun
  simp [VM.slotsOf, hu, heap_get_set_other _ r r' _ hne]

/-- C2: right after `C` was derived from the registered base `B`, binding an
accessor under any name on either table of `B` succeeds and leaves both tables
of `C` as they were, so a name new to the base's Get-table is still absent
from the Get-table of `C`; and binding an accessor on either table of `C`
succeeds and leaves both tables of `B` as they were. -/
theorem DerivedClass_tables_independent (C B : Nat) (A : Allocator) (v : VM)
    (className : String) (bd : ClassData) (cb s g : Nat) (bb bt : Option Nat)
    (bslots S G : Slots)
    (h1 : hasClassData v C = false) (h2 : getStaticClassData v C = false)
    (h3 : v.classes.lookup className = none)
    (hB : getClassData v B = some bd)
    (hc : bd.classObj = .cls cb) (hcb : v.heap[cb]? = some (.cls bb bt bslots))
    (hs : bd.setTable = .table s) (hS : v.heap[s]? = some (.table S))
    (hg : bd.getTable = .table g) (hG : v.heap[g]? = some (.table G)) :
    ∃ o cd, DerivedClass.ctor C B A v className = some o ∧ o.thrown = none ∧
      getClassData o.vm C = some cd ∧
      (∀ (z : String) (var : List Nat) (varSize : Nat) (func : SQFUNCTION) (tb : SQObj),
        tb = bd.getTable ∨ tb = bd.setTable →
        ∃ vm2, BindAccessor o.vm z var varSize func tb = some vm2 ∧
          vm2.slotsOf cd.getTable = o.vm.slotsOf cd.getTable ∧
          vm2.slotsOf cd.setTable = o.vm.slotsOf cd.setTable ∧
          (getSlot G z = none → vm2.rawget cd.getTable z = none)) ∧
      (∀ (w : String) (var : List Nat) (varSize : Nat) (func : SQFUNCTION) (td : SQObj),
        td = cd.getTable ∨ td = cd.setTable →
        ∃ vm2, BindAccessor o.vm w var varSize func td = some vm2 ∧
          vm2.slotsOf bd.getTable = o.vm.slotsOf bd.getTable ∧
          vm2.slotsOf bd.setTable = o.vm.slotsOf bd.setTable ∧
          (getSlot G w = none → vm2.rawget bd.getTable w = none)) := by
  have hsl := heap_lt_of_get _ _ _ hS
  have hgl := heap_lt_of_get _ _ _ hG
  obtain ⟨o, cd, hrun, hthrown, hcd, hcS, hcG, hcs, hcg, -, -, -, -, hbS, hbG⟩ :=
    Derived_ctor_snapshot_facts C B A v className bd cb s g bb bt bslots S G
      h1 h2 h3 hB hc hcb hs hS hg hG
  have hheap : o.vm.heap = v.heap ++ [.cls (some cb) (some C)
      (initMembers A C bslots (v.heap.length + 1) (v.heap.length + 2)), .table S, .table G] := by
    have := Derived_ctor_fresh C B A v className bd cb s g bb bt bslots S G
      h1 h2 hB hc hcb hs hS hg hG
    rw [hrun] at this
    injection this with this
    rw [this]
  refine ⟨o, cd, hrun, hthrown, hcd, ?_, ?_⟩
  · intro z var varSize func tb htb
    have key : ∃ r cell, tb.ref? = some r ∧ o.vm.heap[r]? = some cell ∧ r < v.heap.length := by
      rcases htb with h | h
      · exact ⟨g, _, by rw [h, hg]; rfl, by rw [hheap]; exact heap_get_old _ _ g _ hG, hgl⟩
      · exact ⟨s, _, by rw [h, hs]; rfl, by rw [hheap]; exact heap_get_old _ _ s _ hS, hsl⟩
    obtain ⟨r, cell, hr, hcell, hlt⟩ := key
    have e := BindAccessor_eq o.vm z var varSize func tb r cell hr hcell
    have f1 := BindAccessor_frame o.vm _ z var varSize func tb cd.getTable r
      (v.heap.length + 2) cell hr hcell (by rw [hcg]; rfl) (by omega) e
    have f2 := BindAccessor_frame o.vm _ z var varSize func tb cd.setTable r
      (v.heap.length + 1) cell hr hcell (by rw [hcs]; rfl) (by omega) e
    refine ⟨_, e, f1, f2, ?_⟩
    intro hz
    simp only [VM.rawget, f1, hcG]
    simpa using hz
  · intro w var varSize func td htd
    have key : ∃ r cell, td.ref? = some r ∧ o.vm.heap[r]? = some cell ∧ v.heap.length < r := by
      rcases htd with h | h
      · exact ⟨v.heap.length + 2, _, by rw [h, hcg]; rfl, by rw [hheap]; exact heap3_get2 _ _ _ _,
          by omega⟩
      · exact ⟨v.heap.length + 1, _, by rw [h, hcs]; rfl, by rw [hheap]; exact heap3_get1 _ _ _ _,
          by omega⟩
    obtain ⟨r, cell, hr, hcell, hlt⟩ := key
    have e := BindAccessor_eq o.vm w var varSize func td r cell hr hcell
    have f1 := BindAccessor_frame o.vm _ w var varSize func td bd.getTable r
      g cell hr hcell (by rw [hg]; rfl) (by omega) e
    have f2 := BindAccessor_frame o.vm _ w var varSize func td bd.setTable r
      s cell hr hcell (by rw [hs]; rfl) (by omega) e
    refine ⟨_, e, f1, f2, ?_⟩
    intro hz
    simp only [VM.rawget, f1, hbG]
    simpa using hz

/-! ## `BindConstructor` -/

theorem BindConstructor_eq (C : Nat) (mangle : String → Int → String) (vm : VM)
    (constructor : SQFUNCTION) (nParams : Int) (name : Option String) (ct : SQObj) (r : Nat)
    (cell : HeapObj) (hct : ctorContainer vm C name = some ct) (hr : ct.ref? = some r)
    (hcell : vm.heap[r]? = some cell) :
    BindConstructor C mangle vm constructor nParams name =
      some { vm with
        heap := vm.heap.set r (cell.withSlots
          (setSlot (setSlot cell.slots (name.getD "constructor")
              (ctorForwarder (name.getD "constructor")))
            (mangle (name.getD "constructor") (toInt32 nParams))
            (.nativeclosure constructor .nil
              (some (mangle (name.getD "constructor") (toInt32 nParams)))))) } := by
  cases name with
  | none =>
    simp only [ctorContainer, Option.map_eq_some'] at hct
    obtain ⟨cd, hcd, hobj⟩ := hct
    subst hobj
    simp [BindConstructor, hcd, sq_pushobject, sq_pushstring, sq_push, sq_newclosure,
      sq_setnativeclosurename, sq_newslot, sq_pop, stackGet, SQFree.ofList, hr, hcell,
      heap_get_set_same _ r cell _ hcell, slots_withSlots, ctorForwarder,
      -List.getElem?_eq_getElem, List.getElem?_cons_zero, List.getElem?_cons_succ]
    cases cell <;> simp [HeapObj.withSlots]
  | some nm =>
    simp only [ctorContainer, Option.some.injEq] at hct
    subst hct
    simp only [SQObj.ref?, Option.some.injEq] at hr
    subst hr
    simp [BindConstructor, sq_pushroottable, sq_pushstring, sq_push, sq_newclosure,
      sq_setnativeclosurename, sq_newslot, sq_pop, stackGet, SQFree.ofList, hcell, SQObj.ref?,
      heap_get_set_same _ _ cell _ hcell, slots_withSlots, ctorForwarder,
      -List.getElem?_eq_getElem, List.getElem?_cons_zero, List.getElem?_cons_succ]
    cases cell <;> simp [HeapObj.withSlots]

theorem toInt32_of_small (n : Nat) (h : n < 2 ^ 31) : toInt32 (n : Int) = n := by
  unfold toInt32
  omega

/-- C7: for an argument count `n` (below `2^31`) whose mangled overload name
differs from the entry-point name, `Ctor` succeeds on a live target container
(the class object when no name is given, the root table otherwise) and leaves
in it the forwarder closure, with the name as free variable, under the entry
point name (default "constructor") and the native constructor under the
mangled name; every other slot of the container, every other heap cell and
the stack are as before. -/
theorem Ctor_installs_two_slots (C : Nat) (A : Allocator) (mangle : String → Int → String)
    (vm : VM) (n : Nat) (name : Option String) (ct : SQObj) (slots : Slots)
    (hct : ctorContainer vm C name = some ct) (hslots : vm.slotsOf ct = some slots)
    (hn : n < 2 ^ 31)
    (hne : mangle (name.getD "constructor") n ≠ name.getD "constructor") :
    ∃ vm2, Ctor C A mangle vm n name = some vm2 ∧
      vm2.rawget ct (name.getD "constructor") = some (ctorForwarder (name.getD "constructor")) ∧
      vm2.rawget ct (mangle (name.getD "constructor") n) =
        some (.nativeclosure (A.iNew n) .nil (some (mangle (name.getD "constructor") n))) ∧
      (∀ k, k ≠ name.getD "constructor" → k ≠ mangle (name.getD "constructor") n →
        vm2.rawget ct k = vm.rawget ct k) ∧
      (∀ r r', ct.ref? = some r → r' ≠ r → vm2.heap[r']? = vm.heap[r']?) ∧
      vm2.stack = vm.stack := by
  obtain ⟨r, cell, hr, hcell, hs⟩ := slotsOf_some vm ct slots hslots
  have e := BindConstructor_eq C mangle vm (A.iNew n) n name ct r cell hct hr hcell
  rw [toInt32_of_small n hn] at e
  refine ⟨_, e, ?_, ?_, ?_, ?_, rfl⟩
  · simp [VM.rawget, VM.slotsOf, hr, heap_get_set_same _ r cell _ hcell, slots_withSlots,
      getSlot_setSlot_same, getSlot_setSlot_other _ _ _ _ (Ne.symm hne)]
  · simp [VM.rawget, VM.slotsOf, hr, heap_get_set_same _ r cell _ hcell, slots_withSlots,
      getSlot_setSlot_same]
  · intro k hk1 hk2
    simp [VM.rawget, VM.slotsOf, hr, hcell, heap_get_set_same _ r cell _ hcell, slots_withSlots,
      getSlot_setSlot_other _ _ _ _ hk1, getSlot_setSlot_other _ _ _ _ hk2]
  · intro r0 r' hr0 hne'
    rw [hr] at hr0
    injection hr0 with hr0
    subst hr0
    exact heap_get_set_other _ _ _ _ hne'

/-- Witness of C7: binding a two-parameter constructor on the class object of
"Base". -/
theorem Ctor_installs_two_slots_witness :
    ∃ vm2, Ctor 1 alloc0 mangle0 vmBase 2 none = some vm2 ∧
      vm2.rawget (.cls 1) "constructor" = some (ctorForwarder "constructor") ∧
      vm2.rawget (.cls 1) (mangle0 "constructor" 2) =
        some (.nativeclosure (alloc0.iNew 2) .nil (some (mangle0 "constructor" 2))) ∧
      (∀ k, k ≠ "constructor" → k ≠ mangle0 "constructor" 2 →
        vm2.rawget (.cls 1) k = vmBase.rawget (.cls 1) k) ∧
      (∀ r r', (SQObj.cls 1).ref? = some r → r' ≠ r → vm2.heap[r']? = vmBase.heap[r']?) ∧
      vm2.stack = vmBase.stack :=
  Ctor_installs_two_slots 1 alloc0 mangle0 vmBase 2 none (.cls 1) (initMembers alloc0 1 [] 2 3)
    (by rfl) (by rfl) (by decide) (by decide)

/-! ## Two constructors of the same arity under one name -/

theorem setSlot_setSlot_same (s : Slots) (k : String) (v w : SQObj) :
    setSlot (setSlot s k v) k w = setSlot s k w := by
  induction s with
  | nil => simp [setSlot]
  | cons p rest ih =>
    obtain ⟨k0, v0⟩ := p
    by_cases h : k0 = k
    · simp [setSlot, h]
    · simp [setSlot, h, ih]

theorem setSlot_of_getSlot (s : Slots) (k : String) (v : SQObj) (h : getSlot s k = some v) :
    setSlot s k v = s := by
  induction s with
  | nil => simp [getSlot] at h
  | cons p rest ih =>
    obtain ⟨k0, v0⟩ := p
    by_cases hk : k0 = k
    · simp [getSlot, hk] at h
      simp [setSlot, hk, h]
    · simp [getSlot, hk] at h
      simp [setSlot, hk, ih h]

theorem withSlots_withSlots (c : HeapObj) (s t : Slots) :
    (c.withSlots s).withSlots t = c.withSlots t := by
  cases c <;> rfl

theorem BindConstructor_twice (C : Nat) (mangle : String → Int → String) (vm : VM)
    (c1 c2 : SQFUNCTION) (n : Nat) (name : Option String) (ct : SQObj) (slots : Slots)
    (hct : ctorContainer vm C name = some ct) (hslots : vm.slotsOf ct = some slots)
    (hn : n < 2 ^ 31)
    (hne : mangle (name.getD "constructor") n ≠ name.getD "constructor") :
    ∃ vm1 vm2, BindConstructor C mangle vm c1 n name = some vm1 ∧
      BindConstructor C mangle vm1 c2 n name = some vm2 ∧
      vm1.rawget ct (mangle (name.getD "constructor") n) =
        some (.nativeclosure c1 .nil (some (mangle (name.getD "constructor") n))) ∧
      vm2.rawget ct (mangle (name.getD "constructor") n) =
        some (.nativeclosure c2 .nil (some (mangle (name.getD "constructor") n))) ∧
      vm2.rawget ct (name.getD "constructor") = some (ctorForwarder (name.getD "constructor")) ∧
      (∀ k, k ≠ name.getD "constructor" → k ≠ mangle (name.getD "constructor") n →
        vm2.rawget ct k = vm.rawget ct k) ∧
      (∀ r r', ct.ref? = some r → r' ≠ r → vm2.heap[r']? = vm.heap[r']?) ∧
      vm2.stack = vm.stack ∧
      BindConstructor C mangle vm c2 n name = some vm2 := by
  obtain ⟨r, cell, hr, hcell, hs⟩ := slotsOf_some vm ct slots hslots
  have e1 := BindConstructor_eq C mangle vm c1 n name ct r cell hct hr hcell
  have e3 := BindConstructor_eq C mangle vm c2 n name ct r cell hct hr hcell
  rw [toInt32_of_small n hn] at e1 e3
  have hct1 : ∀ h : List HeapObj, ctorContainer { vm with heap := h } C name = some ct := by
    intro h
    cases name <;> simpa [ctorContainer, getClassData] using hct
  have e2 := fun x : HeapObj => BindConstructor_eq C mangle
    ⟨vm.stack, vm.heap.set r x, vm.roottable, vm.classes, vm.statics⟩ c2 n name ct r x
    (hct1 _) hr (heap_get_set_same vm.heap r cell x hcell)
  refine ⟨_, _, e1, ?_, ?_, ?_, ?_, ?_, ?_, ?_, e3⟩
  · rw [e2 _, toInt32_of_small n hn]
    simp only [slots_withSlots, withSlots_withSlots, List.set_set]
    rw [setSlot_of_getSlot _ (name.getD "constructor") (ctorForwarder (name.getD "constructor"))
      (by rw [getSlot_setSlot_other _ _ _ _ (Ne.symm hne), getSlot_setSlot_same]),
      setSlot_setSlot_same]
  · simp [VM.rawget, VM.slotsOf, hr, heap_get_set_same _ r cell _ hcell, slots_withSlots,
      getSlot_setSlot_same]
  · simp [VM.rawget, VM.slotsOf, hr, heap_get_set_same _ r cell _ hcell, slots_withSlots,
      getSlot_setSlot_same]
  · simp [VM.rawget, VM.slotsOf, hr, heap_get_set_same _ r cell _ hcell, slots_withSlots,
      getSlot_setSlot_same, getSlot_setSlot_other _ _ _ _ (Ne.symm hne)]
  · intro k hk1 hk2
    simp [VM.rawget, VM.slotsOf, hr, hcell, heap_get_set_same _ r cell _ hcell, slots_withSlots,
      getSlot_setSlot_other _ _ _ _ hk1, getSlot_setSlot_other _ _ _ _ hk2]
  · intro r0 r' hr0 hne'
    rw [hr] at hr0
    injection hr0 with hr0
    subst hr0
    exact heap_get_set_other _ _ _ _ hne'
  · rfl

/-- C6 (as stated, refuted): on the class object of "Base", binding the
one-parameter constructor `iNew< int >` and then, under the same name, the
one-parameter constructor `iNew< float >` (what `Ctor< int >()` followed by
`Ctor< float >()` does) is not rejected: both calls of `BindConstructor` return
normally, and the slot of the mangled (name, arity) key, which held the first
constructor, holds the second. -/
theorem BindConstructor_same_arity_not_rejected :
    ∃ vm1 vm2, BindConstructor 1 mangle0 vmBase "iNew<int>" 1 none = some vm1 ∧
      BindConstructor 1 mangle0 vm1 "iNew<float>" 1 none = some vm2 ∧
      vm1.rawget (.cls 1) (mangle0 "constructor" 1) =
        some (.nativeclosure "iNew<int>" .nil (some (mangle0 "constructor" 1))) ∧
      vm2.rawget (.cls 1) (mangle0 "constructor" 1) =
        some (.nativeclosure "iNew<float>" .nil (some (mangle0 "constructor" 1))) := by
  obtain ⟨vm1, vm2, h1, h2, h3, h4, -⟩ :=
    BindConstructor_twice 1 mangle0 vmBase "iNew<int>" "iNew<float>" 1 none (.cls 1)
      (initMembers alloc0 1 [] 2 3) (by rfl) (by rfl) (by decide) (by decide)
  exact ⟨vm1, vm2, h1, h2, h3, h4⟩

/-- C6 (amended): binding two constructors with the same number `n` of
parameters (below `2^31`) under the same name on one class is not rejected.
On a live target container, and with a mangled overload name that differs from
the entry-point name, both calls of `BindConstructor` return normally; the
slot of the mangled (name, arity) key holds the first constructor after the
first call and the second constructor after the second; the entry-point slot
holds the forwarder, every other slot, every other heap cell and the stack are
as before, and the runtime ends exactly as if only the second constructor had
been bound (unchanged by the second call when both are the same constructor).
So a (name, arity) pair has one entry, that of the last registration. -/
theorem same_arity_registration_replaces (C : Nat) (mangle : String → Int → String) (vm : VM)
    (c1 c2 : SQFUNCTION) (n : Nat) (name : Option String) (ct : SQObj) (slots : Slots)
    (hct : ctorContainer vm C name = some ct) (hslots : vm.slotsOf ct = some slots)
    (hn : n < 2 ^ 31)
    (hne : mangle (name.getD "constructor") n ≠ name.getD "constructor") :
    ∃ vm1 vm2, BindConstructor C mangle vm c1 n name = some vm1 ∧
      BindConstructor C mangle vm1 c2 n name = some vm2 ∧
      vm1.rawget ct (mangle (name.getD "constructor") n) =
        some (.nativeclosure c1 .nil (some (mangle (name.getD "constructor") n))) ∧
      vm2.rawget ct (mangle (name.getD "constructor") n) =
        some (.nativeclosure c2 .nil (some (mangle (name.getD "constructor") n))) ∧
      vm2.rawget ct (name.getD "constructor") = some (ctorForwarder (name.getD "constructor")) ∧
      (∀ k, k ≠ name.getD "constructor" → k ≠ mangle (name.getD "constructor") n →
        vm2.rawget ct k = vm.rawget ct k) ∧
      (∀ r r', ct.ref? = some r → r' ≠ r → vm2.heap[r']? = vm.heap[r']?) ∧
      vm2.stack = vm.stack ∧
      BindConstructor C mangle vm c2 n name = some vm2 ∧
      (c1 = c2 → vm2 = vm1) := by
  obtain ⟨vm1, vm2, h1, h2, h3, h4, h5, h6, h7, h8, h9⟩ :=
    BindConstructor_twice C mangle vm c1 c2 n name ct slots hct hslots hn hne
  refine ⟨vm1, vm2, h1, h2, h3, h4, h5, h6, h7, h8, h9, ?_⟩
  intro hc
  subst hc
  rw [h1] at h9
  injection h9 with h9
  exact h9.symm

/-- Witness of the amended C6: two two-parameter constructors bound under the
default name on the class object of "Base". -/
theorem same_arity_registration_replaces_witness :
    ∃ vm1 vm2, BindConstructor 1 mangle0 vmBase "iNew<int,int>" 2 none = some vm1 ∧
      BindConstructor 1 mangle0 vm1 "iNew<float,float>" 2 none = some vm2 ∧
      vm1.rawget (.cls 1) (mangle0 "constructor" 2) =
        some (.nativeclosure "iNew<int,int>" .nil (some (mangle0 "constructor" 2))) ∧
      vm2.rawget (.cls 1) (mangle0 "constructor" 2) =
        some (.nativeclosure "iNew<float,float>" .nil (some (mangle0 "constructor" 2))) ∧
      vm2.rawget (.cls 1) "constructor" = some (ctorForwarder "constructor") ∧
      (∀ k, k ≠ "constructor" → k ≠ mangle0 "constructor" 2 →
        vm2.rawget (.cls 1) k = vmBase.rawget (.cls 1) k) ∧
      (∀ r r', (SQObj.cls 1).ref? = some r → r' ≠ r → vm2.heap[r']? = vmBase.heap[r']?) ∧
      vm2.stack = vmBase.stack ∧
      BindConstructor 1 mangle0 vmBase "iNew<float,float>" 2 none = some vm2 ∧
      ("iNew<int,int>" = "iNew<float,float>" → vm2 = vm1) :=
  same_arity_registration_replaces 1 mangle0 vmBase "iNew<int,int>" "iNew<float,float>" 2 none
    (.cls 1) (initMembers alloc0 1 [] 2 3) (by rfl) (by rfl) (by decide) (by decide)

/-- Witness of C2: deriving native type 2 from "Base" after "Base" got the
getter "x". -/
theorem DerivedClass_tables_independent_witness :
    ∃ o cd, DerivedClass.ctor 2 1 alloc0 vmBaseX "Derived" = some o ∧ o.thrown = none ∧
      getClassData o.vm 2 = some cd ∧
      (∀ (z : String) (var : List Nat) (varSize : Nat) (func : SQFUNCTION) (tb : SQObj),
        tb = cdBase.getTable ∨ tb = cdBase.setTable →
        ∃ vm2, BindAccessor o.vm z var varSize func tb = some vm2 ∧
          vm2.slotsOf cd.getTable = o.vm.slotsOf cd.getTable ∧
          vm2.slotsOf cd.setTable = o.vm.slotsOf cd.setTable ∧
          (getSlot [("x", accessorClosure "x" [8] 1 "sqDefaultGet")] z = none →
            vm2.rawget cd.getTable z = none)) ∧
      (∀ (w : String) (var : List Nat) (varSize : Nat) (func : SQFUNCTION) (td : SQObj),
        td = cd.getTable ∨ td = cd.setTable →
        ∃ vm2, BindAccessor o.vm w var varSize func td = some vm2 ∧
          vm2.slotsOf cdBase.getTable = o.vm.slotsOf cdBase.getTable ∧
          vm2.slotsOf cdBase.setTable = o.vm.slotsOf cdBase.setTable ∧
          (getSlot [("x", accessorClosure "x" [8] 1 "sqDefaultGet")] w = none →
            vm2.rawget cdBase.getTable w = none)) :=
  DerivedClass_tables_independent 2 1 alloc0 vmBaseX "Derived" cdBase 1 2 3 none (some 1)
    (initMembers alloc0 1 [] 2 3) [] [("x", accessorClosure "x" [8] 1 "sqDefaultGet")]
    (by rfl) (by rfl) (by rfl) (by rfl) (by rfl) (by rfl) (by rfl) (by rfl) (by rfl) (by rfl)

/-! ## Second registration -/

/-- C1 (as stated, refuted): in the sample runtime the first registration of
native type 1 succeeds and stores its class data, and a second construction of
`Class` for the same type on that runtime returns normally, no exception being
thrown, with the runtime unchanged. -/
theorem Class_ctor_second_registration_no_error :
    hasClassData vmBase 1 = true ∧
      Class.ctor 1 alloc0 vm0 "Base" true = some { vm := vmBase, thrown := none } ∧
      Class.ctor 1 alloc0 vmBase "Base" true = some { vm := vmBase, thrown := none } ∧
      Class.ctor 1 alloc0 vmBase "Base" true ≠
        some { vm := vmBase, thrown := some "investigate me! [Class]" } := by
  have h3 : Class.ctor 1 alloc0 vmBase "Base" true = some { vm := vmBase, thrown := none } := by
    rfl
  refine ⟨by rfl, by rfl, h3, ?_⟩
  rw [h3]
  intro h
  injection h with h
  injection h with h1 h2
  cases h2

/-- C1 (amended): when the runtime already holds class data for `C`, a second
construction of `Class<C>` or of `DerivedClass<C, B>` throws nothing and
returns with the runtime, hence the first descriptor, unchanged. -/
theorem ctor_second_registration_skips (C : Nat) (A : Allocator) (v : VM) (className : String)
    (h : hasClassData v C = true) :
    Class.ctor C A v className true = some { vm := v, thrown := none } ∧
      ∀ B, DerivedClass.ctor C B A v className = some { vm := v, thrown := none } := by
  constructor
  · simp [Class.ctor, h]
  · intro B
    simp [DerivedClass.ctor, Class_ctor_skip, h]

/-- Witness of the amended C1 on the sample runtime holding "Base". -/
theorem ctor_second_registration_skips_witness :
    Class.ctor 1 alloc0 vmBase "Other" true = some { vm := vmBase, thrown := none } ∧
      ∀ B, DerivedClass.ctor 1 B alloc0 vmBase "Other" = some { vm := vmBase, thrown := none } :=
  ctor_second_registration_skips 1 alloc0 vmBase "Other" (by rfl)

/-! ## Overload dispatcher -/

namespace Overloads

theorem hasKey_iff (e : Entry) (name : String) (arity : Int) :
    e.hasKey name arity = true ↔ e.name = name ∧ e.arity = arity := by
  simp [Entry.hasKey]

theorem BindOverload_ok (t t1 : Table) (name : String) (arity : Int) (tr : SQFUNCTION)
    (h : BindOverload t name arity tr = .ok t1) :
    (∀ e ∈ t, ¬ (e.name = name ∧ e.arity = arity)) ∧
      t1 = t ++ [{ name := name, arity := arity, trampoline := tr }] := by
  unfold BindOverload at h
  split at h
  · cases h
  · rename_i hany
    injection h with h
    refine ⟨?_, h.symm⟩
    intro e he hk
    apply hany
    rw [List.any_eq_true]
    exact ⟨e, he, (hasKey_iff e name arity).2 hk⟩

theorem OverloadAll_ok (bs : List (String × Callable)) :
    ∀ (t t1 : Table), OverloadAll t bs = .ok t1 → UniqueKeys t →
      t1 = t ++ bs.map entryOf ∧ UniqueKeys t1 := by
  induction bs with
  | nil =>
    intro t t1 h hu
    simp only [OverloadAll] at h
    injection h with h
    subst h
    exact ⟨by simp, hu⟩
  | cons b rest ih =>
    intro t t1 h hu
    obtain ⟨name, method⟩ := b
    simp only [OverloadAll] at h
    cases hb : Overload t name method with
    | error e => simp [hb] at h
    | ok t2 =>
      simp only [hb] at h
      obtain ⟨hfree, ht2⟩ := BindOverload_ok t t2 name _ _ hb
      have hu2 : UniqueKeys t2 := by
        rw [ht2]
        unfold UniqueKeys
        rw [List.pairwise_append]
        refine ⟨hu, List.pairwise_singleton _ _, ?_⟩
        intro a ha b hb'
        simp only [List.mem_singleton] at hb'
        subst hb'
        exact hfree a ha
      obtain ⟨e1, e2⟩ := ih t2 t1 h hu2
      refine ⟨?_, e2⟩
      rw [e1, ht2]
      simp [entryOf]

theorem Resolve_of_entry (t : Table) (hu : UniqueKeys t) (e : Entry) (he : e ∈ t) :
    Resolve t e.name e.arity = .ok e.trampoline := by
  induction t with
  | nil => cases he
  | cons a rest ih =>
    unfold UniqueKeys at hu
    rw [List.pairwise_cons] at hu
    by_cases hk : a.hasKey e.name e.arity = true
    · have hae : a = e := by
        rcases List.mem_cons.1 he with h | h
        · exact h.symm
        · exact absurd ((hasKey_iff a _ _).1 hk) (hu.1 e h)
      subst hae
      simp [Resolve, List.find?, hk]
    · have hmem : e ∈ rest := by
        rcases List.mem_cons.1 he with h | h
        · subst h
          exact absurd ((hasKey_iff e _ _).2 ⟨rfl, rfl⟩) hk
        · exact h
      have := ih hu.2 hmem
      simp only [Bool.not_eq_true] at hk
      simpa [Resolve, List.find?, hk] using this

theorem Resolve_of_absent (t : Table) (name : String) (c : Int)
    (h : ∀ e ∈ t, ¬ (e.name = name ∧ e.arity = c)) :
    Resolve t name c = .error .NoMatchingOverloadError := by
  have : (t.find? fun e => e.hasKey name c) = none := by
    rw [List.find?_eq_none]
    intro e he hk
    exact h e he ((hasKey_iff e name c).1 hk)
  simp [Resolve, this]

/-- C5: when a chain of `Overload` calls on a fresh class succeeds, a call to
a bound name with the argument count of one of its bound callables resolves to
that callable's trampoline, and a call to a name with an argument count no
callable was bound for under that name fails with `NoMatchingOverloadError`. -/
theorem Overload_dispatch_by_arity (bs : List (String × Callable)) (t : Table)
    (h : OverloadAll [] bs = .ok t) :
    (∀ name method, (name, method) ∈ bs →
        Resolve t name (SqGetArgCount method) = .ok (SqMemberOverloadedFunc method)) ∧
      (∀ name (c : Int), (∀ method, (name, method) ∈ bs → SqGetArgCount method ≠ c) →
        Resolve t name c = .error .NoMatchingOverloadError) := by
  obtain ⟨ht, hu⟩ := OverloadAll_ok bs [] t h List.Pairwise.nil
  simp only [List.nil_append] at ht
  constructor
  · intro name method hm
    have hmem : entryOf (name, method) ∈ t := by
      rw [ht]
      exact List.mem_map_of_mem entryOf hm
    exact Resolve_of_entry t hu (entryOf (name, method)) hmem
  · intro name c hc
    apply Resolve_of_absent
    intro e he hk
    rw [ht, List.mem_map] at he
    obtain ⟨⟨n, m⟩, hb, hbe⟩ := he
    subst hbe
    simp only [entryOf] at hk
    obtain ⟨hn, ha⟩ := hk
    subst hn
    exact hc m hb ha

/-- Witness of C5 on the two `Reset` overloads. -/
theorem Overload_dispatch_by_arity_witness :
    (∀ name method, (name, method) ∈ resetOverloads →
        Resolve (resetOverloads.map entryOf) name (SqGetArgCount method) =
          .ok (SqMemberOverloadedFunc method)) ∧
      (∀ name (c : Int), (∀ method, (name, method) ∈ resetOverloads → SqGetArgCount method ≠ c) →
        Resolve (resetOverloads.map entryOf) name c = .error .NoMatchingOverloadError) :=
  Overload_dispatch_by_arity resetOverloads (resetOverloads.map entryOf) (by rfl)

/-- Spec 4.3 read on the modelled binder: once `Overload` has bound a callable
under a name, the modelled `BindOverload` answers a callable with the same
number of parameters under the same name, the same callable in particular,
with `DuplicateOverloadError`.  The binder whose body is in the header,
`BindConstructor`, replaces the entry instead. -/
theorem Overload_rejects_same_arity (t t1 : Table) (name : String) (m1 m2 : Callable)
    (h : Overload t name m1 = .ok t1) (hp : m2.params = m1.params) :
    Overload t1 name m2 = .error .DuplicateOverloadError ∧
      Overload t1 name m1 = .error .DuplicateOverloadError ∧
      ∀ rest, OverloadAll t ((name, m1) :: (name, m2) :: rest) =
        .error .DuplicateOverloadError := by
  obtain ⟨-, ht1⟩ := BindOverload_ok t t1 name _ _ h
  have e2 : Overload t1 name m2 = .error .DuplicateOverloadError := by
    subst ht1
    simp [Overload, BindOverload, Entry.hasKey, SqGetArgCount, hp]
  refine ⟨e2, ?_, ?_⟩
  · subst ht1
    simp [Overload, BindOverload, Entry.hasKey, SqGetArgCount]
  · intro rest
    simp [OverloadAll, h, e2]

/-- The modelled binder on the XML document binding: with `SaveFile1` bound
twice under "SaveFile" the chain of `Register_XML`, which runs at start-up,
would stop at the second binding. -/
theorem Overload_rejects_same_arity_witness :
    Overload [entryOf ("SaveFile", { symbol := "XmlDocument::SaveFile1", params := 1 })]
        "SaveFile" { symbol := "XmlDocument::SaveFile1", params := 1 } =
          .error .DuplicateOverloadError ∧
      Overload [entryOf ("SaveFile", { symbol := "XmlDocument::SaveFile1", params := 1 })]
        "SaveFile" { symbol := "XmlDocument::SaveFile1", params := 1 } =
          .error .DuplicateOverloadError ∧
      ∀ rest, OverloadAll []
        (("SaveFile", { symbol := "XmlDocument::SaveFile1", params := 1 }) ::
          ("SaveFile", { symbol := "XmlDocument::SaveFile1", params := 1 }) :: rest) =
            .error .DuplicateOverloadError :=
  Overload_rejects_same_arity [] _ "SaveFile"
    { symbol := "XmlDocument::SaveFile1", params := 1 }
    { symbol := "XmlDocument::SaveFile1", params := 1 } (by rfl) (by rfl)

end Overloads

/-! ## Instance lifetime manager -/

namespace Instances

theorem handleOf_none (m : Manager) (addr : Nat) (h : m.handleOf addr = none) :
    ∀ r ∈ m.records, r.1 ≠ addr := by
  intro r hr
  simp only [Manager.handleOf, Option.map_eq_none', List.find?_eq_none] at h
  simpa using h r hr

theorem handleOf_some (m : Manager) (addr : Nat) (hd : SQObj) (h : m.handleOf addr = some hd) :
    (addr, hd) ∈ m.records := by
  simp only [Manager.handleOf, Option.map_eq_some'] at h
  obtain ⟨r, hr, hr2⟩ := h
  have h1 := List.find?_some hr
  have h2 := List.mem_of_find?_eq_some hr
  simp only [decide_eq_true_eq] at h1
  obtain ⟨a, b⟩ := r
  simp only at h1 hr2
  subst h1 hr2
  exact h2

theorem Inv_bind (m : Manager) (addr : Nat) (h : Inv m) : Inv (Bind m addr).2 := by
  unfold Bind
  cases hh : m.handleOf addr with
  | some hd => exact h
  | none =>
    obtain ⟨h1, h2, h3⟩ := h
    have hfree := handleOf_none m addr hh
    refine ⟨?_, ?_, ?_⟩
    · simp only [List.map_append, List.map_cons, List.map_nil]
      rw [List.nodup_append]
      refine ⟨h1, List.nodup_singleton _, ?_⟩
      intro a ha hb
      simp only [List.mem_singleton] at hb
      subst hb
      rw [List.mem_map] at ha
      obtain ⟨r, hr, hra⟩ := ha
      exact hfree r hr hra
    · simp only [List.map_append, List.map_cons, List.map_nil]
      rw [List.nodup_append]
      refine ⟨h2, List.nodup_singleton _, ?_⟩
      intro a ha hb
      simp only [List.mem_singleton] at hb
      subst hb
      rw [List.mem_map] at ha
      obtain ⟨r, hr, hra⟩ := ha
      obtain ⟨i, hi, hri⟩ := h3 r hr
      rw [hri] at hra
      injection hra with hra
      omega
    · intro r hr
      simp only [List.mem_append, List.mem_singleton] at hr
      rcases hr with hr | hr
      · obtain ⟨i, hi, hri⟩ := h3 r hr
        exact ⟨i, by simp only; omega, hri⟩
      · subst hr
        exact ⟨m.created, by simp, rfl⟩

theorem Inv_unbind (m : Manager) (addr : Nat) (h : Inv m) : Inv (Unbind m addr) := by
  obtain ⟨h1, h2, h3⟩ := h
  refine ⟨?_, ?_, ?_⟩
  · exact List.Nodup.sublist (List.Sublist.map _ (List.filter_sublist _)) h1
  · exact List.Nodup.sublist (List.Sublist.map _ (List.filter_sublist _)) h2
  · intro r hr
    exact h3 r (List.mem_of_mem_filter hr)

theorem Inv_of_reachable (m : Manager) (h : Reachable m) : Inv m := by
  induction h with
  | init => exact ⟨List.nodup_nil, List.nodup_nil, by intro r hr; cases hr⟩
  | bind m addr _ ih => exact Inv_bind m addr ih
  | unbind m addr _ ih => exact Inv_unbind m addr ih

theorem Bind_mem (m : Manager) (addr : Nat) :
    (addr, (Bind m addr).1) ∈ (Bind m addr).2.records := by
  unfold Bind
  cases hh : m.handleOf addr with
  | some hd => exact handleOf_some m addr hd hh
  | none => simp

theorem Resolve_of_record (m : Manager) (h : Inv m) (addr : Nat) (hd : SQObj)
    (hm : (addr, hd) ∈ m.records) : Resolve m hd = .ok addr := by
  unfold Resolve
  cases hf : m.records.find? fun r => r.2 = hd with
  | none =>
    rw [List.find?_eq_none] at hf
    have := hf (addr, hd) hm
    simp at this
  | some r =>
    have h1 := List.find?_some hf
    have h2 := List.mem_of_find?_eq_some hf
    simp only [decide_eq_true_eq] at h1
    have := List.inj_on_of_nodup_map h.2.1 h2 hm (by simpa using h1)
    subst this
    rfl

theorem Resolve_unbind_of_mem (m : Manager) (h : Inv m) (addr : Nat) (hd : SQObj)
    (hm : (addr, hd) ∈ m.records) : Resolve (Unbind m addr) hd = .error .StaleHandleError := by
  unfold Resolve
  cases hf : (Unbind m addr).records.find? fun r => r.2 = hd with
  | none => rfl
  | some r =>
    exfalso
    have h1 := List.find?_some hf
    have h2 := List.mem_of_find?_eq_some hf
    simp only [decide_eq_true_eq] at h1
    simp only [Unbind, List.mem_filter, decide_eq_true_eq] at h2
    have := List.inj_on_of_nodup_map h.2.1 h2.1 hm (by simpa using h1)
    subst this
    exact h2.2 rfl

/-- C9: in every state of the per-type instance map reached from the empty
map, resolving the handle that `Bind` returns for an address yields that
address, and once the address is unbound resolving the same handle fails with
`StaleHandleError`; the same holds for the handle recorded for an address in
any such state, however long ago it was bound. -/
theorem Resolve_Bind_and_stale_after_Unbind (m : Manager) (addr : Nat) (h : Reachable m) :
    Resolve (Bind m addr).2 (Bind m addr).1 = .ok addr ∧
      Resolve (Unbind (Bind m addr).2 addr) (Bind m addr).1 = .error .StaleHandleError ∧
      ∀ hd, m.handleOf addr = some hd →
        Resolve m hd = .ok addr ∧ Resolve (Unbind m addr) hd = .error .StaleHandleError := by
  have hm := Inv_of_reachable m h
  have hinv := Inv_bind m addr hm
  refine ⟨Resolve_of_record _ hinv addr _ (Bind_mem m addr),
    Resolve_unbind_of_mem _ hinv addr _ (Bind_mem m addr), ?_⟩
  intro hd hh
  have hmem := handleOf_some m addr hd hh
  exact ⟨Resolve_of_record m hm addr hd hmem, Resolve_unbind_of_mem m hm addr hd hmem⟩

/-- Witness of C9 on the empty instance map and address 4096. -/
theorem Resolve_Bind_and_stale_after_Unbind_witness :
    Resolve (Bind Manager.init 4096).2 (Bind Manager.init 4096).1 = .ok 4096 ∧
      Resolve (Unbind (Bind Manager.init 4096).2 4096) (Bind Manager.init 4096).1 =
        .error .StaleHandleError ∧
      ∀ hd, Manager.init.handleOf 4096 = some hd →
        Resolve Manager.init hd = .ok 4096 ∧
          Resolve (Unbind Manager.init 4096) hd = .error .StaleHandleError :=
  Resolve_Bind_and_stale_after_Unbind Manager.init 4096 Reachable.init

theorem Bind_of_handleOf (m : Manager) (addr : Nat) (hd : SQObj)
    (h : m.handleOf addr = some hd) : Bind m addr = (hd, m) := by
  simp [Bind, h]

theorem handleOf_Bind_self (m : Manager) (addr : Nat) :
    (Bind m addr).2.handleOf addr = some (Bind m addr).1 := by
  unfold Bind
  cases hh : m.handleOf addr with
  | some hd => exact hh
  | none =>
    have hn : (m.records.find? fun r => r.1 = addr) = none := by
      simpa [Manager.handleOf] using hh
    simp [Manager.handleOf, List.find?_append, hn]

theorem handleOf_Bind_other (m : Manager) (addr other : Nat) (hd : SQObj)
    (h : m.handleOf addr = some hd) : (Bind m other).2.handleOf addr = some hd := by
  unfold Bind
  cases hh : m.handleOf other with
  | some _ => exact h
  | none =>
    simp only [Manager.handleOf, Option.map_eq_some'] at h
    obtain ⟨r, hr, hr2⟩ := h
    simp [Manager.handleOf, List.find?_append, hr, hr2]

theorem handleOf_BindAll (others : List Nat) :
    ∀ (m : Manager) (addr : Nat) (hd : SQObj), m.handleOf addr = some hd →
      (BindAll m others).handleOf addr = some hd := by
  induction others with
  | nil => intro m addr hd h; exact h
  | cons o rest ih =>
    intro m addr hd h
    exact ih (Bind m o).2 addr hd (handleOf_Bind_other m addr o hd h)

/-- C10: every state of the per-type instance map reached from the empty map
holds at most one record per native address, and binding an address a second
time, with no unbinding in between (other addresses may be bound meanwhile),
returns the handle of the first binding and adds no record. -/
theorem Bind_twice_same_handle (m : Manager) (h : Reachable m) :
    (m.records.map Prod.fst).Nodup ∧
      ∀ (addr : Nat) (others : List Nat),
        (Bind (BindAll (Bind m addr).2 others) addr).1 = (Bind m addr).1 ∧
        (Bind (BindAll (Bind m addr).2 others) addr).2 = BindAll (Bind m addr).2 others := by
  refine ⟨(Inv_of_reachable m h).1, ?_⟩
  intro addr others
  have key := handleOf_BindAll others (Bind m addr).2 addr _ (handleOf_Bind_self m addr)
  rw [Bind_of_handleOf _ addr _ key]
  exact ⟨rfl, rfl⟩

/-- Witness of C10 on the map holding address 4096. -/
theorem Bind_twice_same_handle_witness :
    ((Bind Manager.init 4096).2.records.map Prod.fst).Nodup ∧
      ∀ (addr : Nat) (others : List Nat),
        (Bind (BindAll (Bind (Bind Manager.init 4096).2 addr).2 others) addr).1 =
          (Bind (Bind Manager.init 4096).2 addr).1 ∧
        (Bind (BindAll (Bind (Bind Manager.init 4096).2 addr).2 others) addr).2 =
          BindAll (Bind (Bind Manager.init 4096).2 addr).2 others :=
  Bind_twice_same_handle (Bind Manager.init 4096).2 (Reachable.bind _ 4096 Reachable.init)

end Instances

/-! ## Arity of overloads -/

namespace Overloads

theorem Resolve_after_BindOverload (t t1 : Table) (name : String) (a : Int) (f : SQFUNCTION)
    (h : BindOverload t name a f = .ok t1) :
    Resolve t1 name a = .ok f ∧ ∀ c, c ≠ a → Resolve t1 name c = Resolve t name c := by
  obtain ⟨hfree, ht1⟩ := BindOverload_ok t t1 name a f h
  subst ht1
  have hnone : (t.find? fun e => e.hasKey name a) = none := by
    rw [List.find?_eq_none]
    intro e he hk
    exact hfree e he ((hasKey_iff e name a).1 hk)
  constructor
  · simp only [Resolve, List.find?_append, hnone]
    simp [List.find?, Entry.hasKey]
  · intro c hc
    have hk : Entry.hasKey { name := name, arity := a, trampoline := f } name c = false := by
      simp [Entry.hasKey, Ne.symm hc]
    simp only [Resolve, List.find?_append]
    cases hf : t.find? fun e => e.hasKey name c with
    | some e => simp
    | none => simp [List.find?, hk]

/-- C11: for a callable with `k >= 1` parameters, `Overload` and
`StaticOverload` bind under arity `k` and `GlobalOverload` under `k - 1`; a
successful binding under an arity makes exactly calls with that argument count
resolve to the new trampoline and leaves every other count as it was. -/
theorem overload_registered_arity (t : Table) (name : String) (m : Callable) (k : Nat)
    (hk : m.params = k) (h1 : 1 ≤ k) :
    Overload t name m = BindOverload t name (k : Int) (SqMemberOverloadedFunc m) ∧
      StaticOverload t name m = BindOverload t name (k : Int) (SqGlobalOverloadedFunc m) ∧
      GlobalOverload t name m =
        BindOverload t name ((k - 1 : Nat) : Int) (SqMemberGlobalOverloadedFunc m) ∧
      ∀ (a : Int) (f : SQFUNCTION) (t1 : Table), BindOverload t name a f = .ok t1 →
        Resolve t1 name a = .ok f ∧ ∀ c, c ≠ a → Resolve t1 name c = Resolve t name c := by
  refine ⟨?_, ?_, ?_, ?_⟩
  · simp [Overload, SqGetArgCount, hk]
  · simp [StaticOverload, SqGetArgCount, hk]
  · have : ((m.params : Int) - 1) = ((k - 1 : Nat) : Int) := by omega
    simp [GlobalOverload, SqGetArgCount, this]
  · intro a f t1 h
    exact Resolve_after_BindOverload t t1 name a f h

/-- Witness of C11 on a two-parameter callable and the empty table. -/
theorem overload_registered_arity_witness :
    Overload [] "Reset" { symbol := "Reset2", params := 2 } =
        BindOverload [] "Reset" ((2 : Nat) : Int)
          (SqMemberOverloadedFunc { symbol := "Reset2", params := 2 }) ∧
      StaticOverload [] "Reset" { symbol := "Reset2", params := 2 } =
        BindOverload [] "Reset" ((2 : Nat) : Int)
          (SqGlobalOverloadedFunc { symbol := "Reset2", params := 2 }) ∧
      GlobalOverload [] "Reset" { symbol := "Reset2", params := 2 } =
        BindOverload [] "Reset" ((2 - 1 : Nat) : Int)
          (SqMemberGlobalOverloadedFunc { symbol := "Reset2", params := 2 }) ∧
      ∀ (a : Int) (f : SQFUNCTION) (t1 : Table), BindOverload [] "Reset" a f = .ok t1 →
        Resolve t1 "Reset" a = .ok f ∧ ∀ c, c ≠ a → Resolve t1 "Reset" c = Resolve [] "Reset" c :=
  overload_registered_arity [] "Reset" { symbol := "Reset2", params := 2 } 2 rfl (by decide)

end Overloads

/-! ## Variable and property binders -/

theorem BindAccessor_get_only (vm : VM) (name : String) (var : List Nat) (varSize : Nat)
    (func : SQFUNCTION) (tg ts : SQObj) (g s : Nat) (gc : HeapObj)
    (hg : tg.ref? = some g) (hs : ts.ref? = some s) (hne : g ≠ s)
    (hgc : vm.heap[g]? = some gc) :
    ∃ vm2, BindAccessor vm name var varSize func tg = some vm2 ∧
      vm2.rawget tg name = some (accessorClosure name var varSize func) ∧
      (∀ k, k ≠ name → vm2.rawget tg k = vm.rawget tg k) ∧
      vm2.slotsOf ts = vm.slotsOf ts ∧ vm2.heap[s]? = vm.heap[s]? := by
  have e := BindAccessor_eq vm name var varSize func tg g gc hg hgc
  refine ⟨_, e, ?_, ?_, ?_, ?_⟩
  · simp [VM.rawget, VM.slotsOf, hg, heap_get_set_same _ g gc _ hgc, slots_withSlots,
      getSlot_setSlot_same]
  · intro k hk
    simp [VM.rawget, VM.slotsOf, hg, hgc, heap_get_set_same _ g gc _ hgc, slots_withSlots,
      getSlot_setSlot_other _ _ _ _ hk]
  · exact BindAccessor_frame vm _ name var varSize func tg ts g s gc hg hgc hs (Ne.symm hne) e
  · exact heap_get_set_other _ g s _ (Ne.symm hne)

/-- C12: on a registered class whose Get-table and Set-table are two distinct
live tables, `ConstVar`, the one-function `Prop` and the one-function
`GlobalProp` succeed, put their accessor under `name` in the Get-table, leave
the other names of the Get-table and the whole Set-table as they were; `Var`
succeeds and leaves the getter under `name` in the Get-table and the setter
under `name` in the Set-table. -/
theorem readonly_binders_leave_set_table (C V : Nat) (repr : Overloads.Callable → List Nat)
    (vm : VM) (name : String) (var : List Nat) (getMethod : Overloads.Callable)
    (cd : ClassData) (g s : Nat) (gc sc : HeapObj)
    (hcd : getClassData vm C = some cd)
    (hg : cd.getTable.ref? = some g) (hs : cd.setTable.ref? = some s) (hne : g ≠ s)
    (hgc : vm.heap[g]? = some gc) (hsc : vm.heap[s]? = some sc) :
    (∃ vm2, ConstVar C V vm name var = some vm2 ∧
      vm2.rawget cd.getTable name =
        some (accessorClosure name var var.length (sqDefaultGet C V)) ∧
      (∀ k, k ≠ name → vm2.rawget cd.getTable k = vm.rawget cd.getTable k) ∧
      vm2.slotsOf cd.setTable = vm.slotsOf cd.setTable) ∧
    (∃ vm2, PropGetter C repr vm name getMethod = some vm2 ∧
      vm2.rawget cd.getTable name =
        some (accessorClosure name (repr getMethod) (repr getMethod).length
          (Overloads.SqMemberOverloadedFunc getMethod)) ∧
      (∀ k, k ≠ name → vm2.rawget cd.getTable k = vm.rawget cd.getTable k) ∧
      vm2.slotsOf cd.setTable = vm.slotsOf cd.setTable) ∧
    (∃ vm2, GlobalPropGetter C repr vm name getMethod = some vm2 ∧
      vm2.rawget cd.getTable name =
        some (accessorClosure name (repr getMethod) (repr getMethod).length
          (Overloads.SqMemberGlobalOverloadedFunc getMethod)) ∧
      (∀ k, k ≠ name → vm2.rawget cd.getTable k = vm.rawget cd.getTable k) ∧
      vm2.slotsOf cd.setTable = vm.slotsOf cd.setTable) ∧
    (∃ vm2, Var C V vm name var = some vm2 ∧
      vm2.rawget cd.getTable name =
        some (accessorClosure name var var.length (sqDefaultGet C V)) ∧
      vm2.rawget cd.setTable name =
        some (accessorClosure name var var.length (sqDefaultSet C V)) ∧
      (∀ k, k ≠ name → vm2.rawget cd.getTable k = vm.rawget cd.getTable k) ∧
      (∀ k, k ≠ name → vm2.rawget cd.setTable k = vm.rawget cd.setTable k)) := by
  refine ⟨?_, ?_, ?_, ?_⟩
  · obtain ⟨vm2, e, h1, h2, h3, -⟩ := BindAccessor_get_only vm name var var.length
      (sqDefaultGet C V) cd.getTable cd.setTable g s gc hg hs hne hgc
    exact ⟨vm2, by simp [ConstVar, hcd, e], h1, h2, h3⟩
  · obtain ⟨vm2, e, h1, h2, h3, -⟩ := BindAccessor_get_only vm name (repr getMethod)
      (repr getMethod).length (Overloads.SqMemberOverloadedFunc getMethod)
      cd.getTable cd.setTable g s gc hg hs hne hgc
    exact ⟨vm2, by simp [PropGetter, hcd, e], h1, h2, h3⟩
  · obtain ⟨vm2, e, h1, h2, h3, -⟩ := BindAccessor_get_only vm name (repr getMethod)
      (repr getMethod).length (Overloads.SqMemberGlobalOverloadedFunc getMethod)
      cd.getTable cd.setTable g s gc hg hs hne hgc
    exact ⟨vm2, by simp [GlobalPropGetter, hcd, e], h1, h2, h3⟩
  · obtain ⟨vm2, e, h1, h2, h3, h4⟩ := BindAccessor_get_only vm name var var.length
      (sqDefaultGet C V) cd.getTable cd.setTable g s gc hg hs hne hgc
    obtain ⟨vm3, e', k1, k2, k3, -⟩ := BindAccessor_get_only vm2 name var var.length
      (sqDefaultSet C V) cd.setTable cd.getTable s g sc hs hg (Ne.symm hne) (by rw [h4]; exact hsc)
    refine ⟨vm3, by simp [Var, hcd, e, e'], ?_, k1, ?_, ?_⟩
    · simp only [VM.rawget, k3] at h1 ⊢
      exact h1
    · intro k hk
      have := h2 k hk
      simp only [VM.rawget, k3] at this ⊢
      exact this
    · intro k hk
      rw [k2 k hk]
      simp only [VM.rawget, h3]

/-- Witness of C12 on the class "Base" of the sample runtime. -/
theorem readonly_binders_leave_set_table_witness :
    (∃ vm2, ConstVar 1 7 vmBase "x" [8] = some vm2 ∧
      vm2.rawget cdBase.getTable "x" =
        some (accessorClosure "x" [8] [8].length (sqDefaultGet 1 7)) ∧
      (∀ k, k ≠ "x" → vm2.rawget cdBase.getTable k = vmBase.rawget cdBase.getTable k) ∧
      vm2.slotsOf cdBase.setTable = vmBase.slotsOf cdBase.setTable) ∧
    (∃ vm2, PropGetter 1 repr0 vmBase "x" { symbol := "GetX", params := 0 } = some vm2 ∧
      vm2.rawget cdBase.getTable "x" =
        some (accessorClosure "x" (repr0 { symbol := "GetX", params := 0 })
          (repr0 { symbol := "GetX", params := 0 }).length
          (Overloads.SqMemberOverloadedFunc { symbol := "GetX", params := 0 })) ∧
      (∀ k, k ≠ "x" → vm2.rawget cdBase.getTable k = vmBase.rawget cdBase.getTable k) ∧
      vm2.slotsOf cdBase.setTable = vmBase.slotsOf cdBase.setTable) ∧
    (∃ vm2, GlobalPropGetter 1 repr0 vmBase "x" { symbol := "GetX", params := 0 } = some vm2 ∧
      vm2.rawget cdBase.getTable "x" =
        some (accessorClosure "x" (repr0 { symbol := "GetX", params := 0 })
          (repr0 { symbol := "GetX", params := 0 }).length
          (Overloads.SqMemberGlobalOverloadedFunc { symbol := "GetX", params := 0 })) ∧
      (∀ k, k ≠ "x" → vm2.rawget cdBase.getTable k = vmBase.rawget cdBase.getTable k) ∧
      vm2.slotsOf cdBase.setTable = vmBase.slotsOf cdBase.setTable) ∧
    (∃ vm2, Var 1 7 vmBase "x" [8] = some vm2 ∧
      vm2.rawget cdBase.getTable "x" =
        some (accessorClosure "x" [8] [8].length (sqDefaultGet 1 7)) ∧
      vm2.rawget cdBase.setTable "x" =
        some (accessorClosure "x" [8] [8].length (sqDefaultSet 1 7)) ∧
      (∀ k, k ≠ "x" → vm2.rawget cdBase.getTable k = vmBase.rawget cdBase.getTable k) ∧
      (∀ k, k ≠ "x" → vm2.rawget cdBase.setTable k = vmBase.rawget cdBase.setTable k)) :=
  readonly_binders_leave_set_table 1 7 repr0 vmBase "x" [8] { symbol := "GetX", params := 0 }
    cdBase 3 2 (.table []) (.table []) (by rfl) (by rfl) (by rfl) (by decide) (by rfl) (by rfl)

/-! ## `GetFunction` -/

/-- C13: on a registered class with a live class object, `GetFunction(name)`
leaves the stack as it found it and returns the null function when the class
object has no slot `name` or when the slot holds neither a closure nor a
native closure, and otherwise the function made of the class object and the
object stored in the slot. -/
theorem GetFunction_result (C : Nat) (vm : VM) (name : String) (cd : ClassData)
    (slots : Slots) (hcd : getClassData vm C = some cd)
    (hslots : vm.slotsOf cd.classObj = some slots) :
    (getSlot slots name = none → GetFunction C vm name = some (Function.null, vm)) ∧
    (∀ v, getSlot slots name = some v → v.type ≠ .OT_CLOSURE → v.type ≠ .OT_NATIVECLOSURE →
      GetFunction C vm name = some (Function.null, vm)) ∧
    (∀ v, getSlot slots name = some v → v.type = .OT_CLOSURE ∨ v.type = .OT_NATIVECLOSURE →
      GetFunction C vm name = some ({ env := cd.classObj, obj := v }, vm)) := by
  have hraw : ∀ st, ({ vm with stack := st } : VM).rawget cd.classObj name = getSlot slots name := by
    intro st
    have : ({ vm with stack := st } : VM).slotsOf cd.classObj = some slots := hslots
    simp [VM.rawget, this]
  refine ⟨?_, ?_, ?_⟩
  · intro h
    simp [GetFunction, hcd, sq_pushobject, sq_pushstring, sq_get, stackGet, hraw, h, sq_pop,
      -List.getElem?_eq_getElem, List.getElem?_cons_zero, List.getElem?_cons_succ]
  · intro v h h1 h2
    simp [GetFunction, hcd, sq_pushobject, sq_pushstring, sq_get, stackGet, hraw, h, sq_pop,
      sq_gettype, h1, h2,
      -List.getElem?_eq_getElem, List.getElem?_cons_zero, List.getElem?_cons_succ]
  · intro v h h1
    have h2 : ¬ (v.type ≠ .OT_CLOSURE ∧ v.type ≠ .OT_NATIVECLOSURE) := by
      rcases h1 with h1 | h1 <;> simp [h1]
    simp [GetFunction, hcd, sq_pushobject, sq_pushstring, sq_get, stackGet, hraw, h, sq_pop,
      sq_gettype, sq_getstackobj, h2,
      -List.getElem?_eq_getElem, List.getElem?_cons_zero, List.getElem?_cons_succ]

/-- Witness of C13 on the class "Base" of the sample runtime. -/
theorem GetFunction_result_witness :
    (getSlot (initMembers alloc0 1 [] 2 3) "weakref" = none →
      GetFunction 1 vmBase "weakref" = some (Function.null, vmBase)) ∧
    (∀ v, getSlot (initMembers alloc0 1 [] 2 3) "weakref" = some v →
      v.type ≠ .OT_CLOSURE → v.type ≠ .OT_NATIVECLOSURE →
      GetFunction 1 vmBase "weakref" = some (Function.null, vmBase)) ∧
    (∀ v, getSlot (initMembers alloc0 1 [] 2 3) "weakref" = some v →
      v.type = .OT_CLOSURE ∨ v.type = .OT_NATIVECLOSURE →
      GetFunction 1 vmBase "weakref" = some ({ env := cdBase.classObj, obj := v }, vmBase)) :=
  GetFunction_result 1 vmBase "weakref" cdBase (initMembers alloc0 1 [] 2 3) (by rfl) (by rfl)

end Sqrat

/-! # Byte buffer -/

namespace SqMod

/-- C17 (the code departs from it): on a buffer of 16 bytes, `Adjust<T>(8)`
with `sizeof(T) = 4` returns without throwing and without calling `Request`,
the capacity stays 16, below the `max(8, 8) * 4 = 32` bytes that 8 elements
need. -/
theorem Adjust_compares_count_with_bytes (Request : Buffer → Nat → Except String Buffer) :
    Buffer.Adjust Request 4 (Buffer.own 4096 16) 8 = .ok (Buffer.own 4096 16, Buffer.null) ∧
      (Buffer.own 4096 16).Capacity < max 8 8 * 4 := by
  constructor
  · simp [Buffer.Adjust, Buffer.Max, Buffer.own]
  · decide

/-- C18 (the code departs from it): `Swap` exchanges pointer and capacity and
leaves each cursor where it was, so after `a.Swap(b)` the position of `a` is
still its own, not the former position of `b`, and `ToStr()` of `a` is not
what `ToStr()` of `b` was. -/
theorem Swap_keeps_cursor :
    Buffer.Swap { m_Ptr := 4096, m_Cap := 8, m_Cur := 5 }
        { m_Ptr := 8192, m_Cap := 16, m_Cur := 0 } =
      ({ m_Ptr := 8192, m_Cap := 16, m_Cur := 5 }, { m_Ptr := 4096, m_Cap := 8, m_Cur := 0 }) ∧
    (Buffer.Swap { m_Ptr := 4096, m_Cap := 8, m_Cur := 5 }
        { m_Ptr := 8192, m_Cap := 16, m_Cur := 0 }).1.Position ≠
      Buffer.Position { m_Ptr := 8192, m_Cap := 16, m_Cur := 0 } ∧
    Buffer.ToStr mem0 (Buffer.Swap { m_Ptr := 4096, m_Cap := 8, m_Cur := 5 }
        { m_Ptr := 8192, m_Cap := 16, m_Cur := 0 }).1 ≠
      Buffer.ToStr mem0 { m_Ptr := 8192, m_Cap := 16, m_Cur := 0 } := by
  refine ⟨by rfl, by decide, by decide⟩

/-- C20: for a capacity and an index of type `unsigned int` and an element
size of type `size_t`, `At<T>(n)` throws when the capacity is below
`sizeof(T)` or `n` exceeds the capacity less `sizeof(T)`, and otherwise returns
the element at byte offset `n` of the buffer; whenever it returns, the element
ends within the capacity. -/
theorem At_within_capacity (sizeofT : Nat) (self : Buffer) (n : Nat)
    (hs : sizeofT < 2 ^ 64) (hc : self.m_Cap < 2 ^ 32) :
    (self.m_Cap < sizeofT ∨ n > self.m_Cap - sizeofT →
        ∃ msg, Buffer.At sizeofT self n = .error msg) ∧
      (¬ (self.m_Cap < sizeofT ∨ n > self.m_Cap - sizeofT) →
        Buffer.At sizeofT self n = .ok (self.m_Ptr + n)) ∧
      (∀ addr, Buffer.At sizeofT self n = .ok addr →
        addr = self.m_Ptr + n ∧ n + sizeofT ≤ self.m_Cap) := by
  have hsub : sizeofT ≤ self.m_Cap →
      (self.m_Cap + 2 ^ 64 - sizeofT) % 2 ^ 64 = self.m_Cap - sizeofT := by
    intro h
    have : self.m_Cap + 2 ^ 64 - sizeofT = (self.m_Cap - sizeofT) + 2 ^ 64 := by omega
    rw [this, Nat.add_mod_right]
    exact Nat.mod_eq_of_lt (by omega)
  refine ⟨?_, ?_, ?_⟩
  · intro h
    unfold Buffer.At
    by_cases h1 : self.m_Cap < sizeofT
    · exact ⟨_, by rw [if_pos h1]⟩
    · have h2 : n > self.m_Cap - sizeofT := by
        rcases h with h | h
        · exact absurd h h1
        · exact h
      rw [if_neg h1, hsub (by omega), if_pos h2]
      exact ⟨_, rfl⟩
  · intro h
    unfold Buffer.At
    have h1 : ¬ self.m_Cap < sizeofT := fun h' => h (Or.inl h')
    have h2 : ¬ n > self.m_Cap - sizeofT := fun h' => h (Or.inr h')
    rw [if_neg h1, hsub (by omega), if_neg h2]
  · intro addr h
    unfold Buffer.At at h
    by_cases h1 : self.m_Cap < sizeofT
    · rw [if_pos h1] at h
      cases h
    · rw [if_neg h1, hsub (by omega)] at h
      by_cases h2 : n > self.m_Cap - sizeofT
      · rw [if_pos h2] at h
        cases h
      · rw [if_neg h2] at h
        injection h with h
        exact ⟨h.symm, by omega⟩

/-- Witness of C20: a four-byte element at offset 12 of a 16-byte buffer. -/
theorem At_within_capacity_witness :
    ((Buffer.own 4096 16).m_Cap < 4 ∨ 12 > (Buffer.own 4096 16).m_Cap - 4 →
        ∃ msg, Buffer.At 4 (Buffer.own 4096 16) 12 = .error msg) ∧
      (¬ ((Buffer.own 4096 16).m_Cap < 4 ∨ 12 > (Buffer.own 4096 16).m_Cap - 4) →
        Buffer.At 4 (Buffer.own 4096 16) 12 = .ok ((Buffer.own 4096 16).m_Ptr + 12)) ∧
      (∀ addr, Buffer.At 4 (Buffer.own 4096 16) 12 = .ok addr →
        addr = (Buffer.own 4096 16).m_Ptr + 12 ∧ 12 + 4 ≤ (Buffer.own 4096 16).m_Cap) :=
  At_within_capacity 4 (Buffer.own 4096 16) 12 (by decide) (by decide)

end SqMod

/-! # String utilities -/

namespace SqMod

theorem explodeCount_no_delimiter (delim : Char) (empty : Bool) (l : List Char) :
    ∀ itr last num, delim ∉ l →
      explodeCount delim empty l itr last num = (itr + l.length, last, num) := by
  induction l with
  | nil => intro itr last num _; rfl
  | cons c rest ih =>
    intro itr last num h
    have hc : c ≠ delim := fun e => h (by simp [e])
    have hr : delim ∉ rest := fun e => h (List.mem_cons_of_mem c e)
    simp only [explodeCount, if_neg hc, ih (itr + 1) last num hr, List.length_cons]
    congr 1
    omega

theorem cstr_of_no_nul (val : List Char) (hn : ∀ c ∈ val, c ≠ Char.ofNat 0) : cstr val = val := by
  unfold cstr
  rw [List.takeWhile_eq_self_iff]
  intro c hc
  simpa using hn c hc

theorem Explode_no_delimiter (delim : Char) (empty : Bool) (c0 c1 : Char) (rest : List Char)
    (hn : ∀ c ∈ c0 :: c1 :: rest, c ≠ Char.ofNat 0) (hd : delim ∉ c0 :: c1 :: rest) :
    SqStrExplode delim empty (c0 :: c1 :: rest) = .ok [some (c0 :: c1 :: rest)] := by
  have h0 : c0 ≠ Char.ofNat 0 := hn c0 (by simp)
  have h1 : c1 ≠ Char.ofNat 0 := hn c1 (by simp)
  have hc0 : c0 ≠ delim := fun e => hd (by simp [e])
  have hA0 : charAt (c0 :: c1 :: rest) 0 = c0 := rfl
  have hA1 : charAt (c0 :: c1 :: rest) 1 = c1 := rfl
  have hO : OnlyDelimiter (c0 :: c1 :: rest) delim = false := by
    simp [OnlyDelimiter, hc0]
  have hcount := explodeCount_no_delimiter delim empty (c0 :: c1 :: rest) 0 0 0 hd
  unfold SqStrExplode
  rw [hA0, if_neg h0, cstr_of_no_nul _ hn]
  simp only [hcount]
  simp [hA1, h1, hO]

/-- C15 (the code departs from it): for the one-character string "a", which
holds no delimiter ",", `Explode` returns the empty array when empty elements
are not allowed and an array holding the empty string when they are, never
the array holding "a"; a string of two or more characters without delimiter
(and without NUL) comes back whole, for either flag. -/
theorem Explode_single_char_lost :
    SqStrExplode ',' false "a".data = .ok [] ∧
      SqStrExplode ',' true "a".data = .ok [some "".data] ∧
      (∀ (delim : Char) (empty : Bool) (c0 c1 : Char) (rest : List Char),
        (∀ c ∈ c0 :: c1 :: rest, c ≠ Char.ofNat 0) → delim ∉ c0 :: c1 :: rest →
        SqStrExplode delim empty (c0 :: c1 :: rest) = .ok [some (c0 :: c1 :: rest)]) := by
  refine ⟨by rfl, by rfl, ?_⟩
  intro delim empty c0 c1 rest hn hd
  exact Explode_no_delimiter delim empty c0 c1 rest hn hd

/-- C16 (the code departs from it): with empty elements not allowed, the
string ",a" comes back whole, delimiter included, and the string "a" gives the
empty array, where the non-empty maximal substrings without "," are just "a"
in both cases; "a,,b" gives "a" and "b". -/
theorem Explode_leading_delimiter_kept :
    SqStrExplode ',' false ",a".data = .ok [some ",a".data] ∧
      segments ',' ",a".data = ["a".data] ∧
      SqStrExplode ',' false "a".data = .ok [] ∧
      segments ',' "a".data = ["a".data] ∧
      SqStrExplode ',' false "a,,b".data = .ok [some "a".data, some "b".data] ∧
      segments ',' "a,,b".data = ["a".data, "b".data] := by
  refine ⟨by rfl, by decide, by rfl, by decide, by rfl, by decide⟩

/-! ## Edit distance -/

theorem editDistance_nil_left (ys : List Nat) : editDistance [] ys = ys.length := by
  unfold editDistance
  rfl

theorem editDistance_nil_right (xs : List Nat) : editDistance xs [] = xs.length := by
  induction xs with
  | nil => rfl
  | cons x xs ih => simp [editDistance, editRow, ih]

theorem editDistance_cons_cons (x y : Nat) (xs ys : List Nat) :
    editDistance (x :: xs) (y :: ys) =
      min (min (editDistance xs (y :: ys) + 1) (editDistance (x :: xs) ys + 1))
        (editDistance xs ys + substCost x y) := by
  conv_lhs => unfold editDistance editRow
  rfl

attribute [irreducible] editDistance editRow

theorem min_rows (A B C D E F G H I d1 d2 : Nat) :
    min (min (min (min (A + 1) (B + 1)) (C + d1) + 1) (min (min (D + 1) (E + 1)) (F + d1) + 1))
        (min (min (G + 1) (H + 1)) (I + d1) + d2) =
    min (min (min (min (A + 1) (D + 1)) (G + d2) + 1) (min (min (B + 1) (E + 1)) (H + d2) + 1))
        (min (min (C + 1) (F + 1)) (I + d2) + d1) := by
  simp only [← Nat.add_min_add_right]
  simp only [min_assoc, min_comm, min_left_comm, Nat.add_assoc, Nat.add_comm, Nat.add_left_comm]

theorem editDistance_snoc_snoc (x y : Nat) (xs : List Nat) :
    ∀ ys : List Nat, editDistance (xs ++ [x]) (ys ++ [y]) =
      min (min (editDistance xs (ys ++ [y]) + 1) (editDistance (xs ++ [x]) ys + 1))
        (editDistance xs ys + substCost x y) := by
  induction xs with
  | nil =>
    intro ys
    induction ys with
    | nil =>
      simp only [List.nil_append, editDistance_cons_cons, editDistance_nil_left,
        editDistance_nil_right, List.length_cons, List.length_nil]
    | cons y0 ys ih =>
      have e1 := editDistance_cons_cons x y0 [] (ys ++ [y])
      have e2 := editDistance_cons_cons x y0 [] ys
      simp only [List.nil_append, List.cons_append, editDistance_nil_left, List.length_cons,
        List.length_append, List.length_nil] at ih e1 e2 ⊢
      omega
  | cons x0 xs ih =>
    intro ys
    induction ys with
    | nil =>
      have h1 := ih []
      have e1 := editDistance_cons_cons x0 y (xs ++ [x]) []
      have e2 := editDistance_cons_cons x0 y xs []
      simp only [List.nil_append, List.cons_append, editDistance_nil_right, List.length_cons,
        List.length_append, List.length_nil] at h1 e1 e2 ⊢
      omega
    | cons y0 ys ih2 =>
      have h1 := ih (y0 :: ys)
      have h2 := ih ys
      have e0 := editDistance_cons_cons x0 y0 (xs ++ [x]) (ys ++ [y])
      have e1 := editDistance_cons_cons x0 y0 xs (ys ++ [y])
      have e2 := editDistance_cons_cons x0 y0 (xs ++ [x]) ys
      have e3 := editDistance_cons_cons x0 y0 xs ys
      simp only [List.cons_append] at h1 h2 ih2 e0 e1 e2 e3 ⊢
      rw [e0, h1, ih2, h2, e1, e2, e3]
      exact min_rows _ _ _ _ _ _ _ _ _ _ _

theorem substCost_le (x y : Nat) : substCost x y ≤ 1 := by
  unfold substCost
  split <;> omega

theorem editDistance_self (xs : List Nat) : editDistance xs xs = 0 := by
  induction xs with
  | nil => rw [editDistance_nil_left]; rfl
  | cons x xs ih =>
    rw [editDistance_cons_cons, ih]
    simp [substCost]

theorem bytes_length (mem : Nat → Nat) (p n : Nat) : (bytes mem p n).length = n := by
  simp [bytes]

theorem bytes_succ (mem : Nat → Nat) (p n : Nat) :
    bytes mem p (n + 1) = bytes mem p n ++ [mem (p + n)] := by
  simp [bytes, List.range_succ]

theorem foldl_range_invariant {σ : Type} (f : σ → Nat → σ) (P : Nat → σ → Prop) (s0 : σ)
    (n : Nat) (h0 : P 0 s0) (hstep : ∀ i s, i < n → P i s → P (i + 1) (f s i)) :
    P n ((List.range n).foldl f s0) := by
  induction n with
  | zero => exact h0
  | succ m ih =>
    rw [List.range_succ, List.foldl_append]
    exact hstep m _ (Nat.lt_succ_self m)
      (ih fun i s hi hp => hstep i s (Nat.lt_succ_of_lt hi) hp)

theorem table_zero_left (mem : Nat → Nat) (a b j : Nat) :
    editDistance (bytes mem a 0) (bytes mem b j) = j := by
  have : bytes mem a 0 = [] := rfl
  rw [this, editDistance_nil_left, bytes_length]

theorem table_zero_right (mem : Nat → Nat) (a b i : Nat) :
    editDistance (bytes mem a i) (bytes mem b 0) = i := by
  have : bytes mem b 0 = [] := rfl
  rw [this, editDistance_nil_right, bytes_length]

theorem table_succ (mem : Nat → Nat) (a b i j : Nat) :
    editDistance (bytes mem a (i + 1)) (bytes mem b (j + 1)) =
      min (min (editDistance (bytes mem a i) (bytes mem b (j + 1)) + 1)
          (editDistance (bytes mem a (i + 1)) (bytes mem b j) + 1))
        (editDistance (bytes mem a i) (bytes mem b j) + substCost (mem (a + i)) (mem (b + j))) := by
  have h := editDistance_snoc_snoc (mem (a + i)) (mem (b + j)) (bytes mem a i) (bytes mem b j)
  rw [← bytes_succ, ← bytes_succ] at h
  exact h

theorem levStep_inv (mem : Nat → Nat) (a b la j : Nat) (cache0 : Nat → Nat)
    (hc : ∀ k, k < la → cache0 k = editDistance (bytes mem a (k + 1)) (bytes mem b j))
    (i : Nat) (st : (Nat → Nat) × Nat × Nat) (hi : i < la)
    (h : InnerInv mem a b j cache0 i st) :
    InnerInv mem a b j cache0 (i + 1) (levStep mem a (mem (b + j)) st i) := by
  obtain ⟨h1, h2, h3, h4⟩ := h
  have hci : st.1 i = editDistance (bytes mem a (i + 1)) (bytes mem b j) := by
    rw [h2 i (le_refl i), hc i hi]
  have hrec := table_succ mem a b i j
  have hd := substCost_le (mem (a + i)) (mem (b + j))
  have hbd : (if mem (b + j) = mem (a + i) then st.2.1 else st.2.1 + 1) =
      editDistance (bytes mem a i) (bytes mem b j) + substCost (mem (a + i)) (mem (b + j)) := by
    rw [h3]
    unfold substCost
    by_cases hEq : mem (a + i) = mem (b + j)
    · rw [if_pos hEq, if_pos hEq.symm]; rfl
    · rw [if_neg hEq, if_neg (fun h' => hEq h'.symm)]
  have hres : (levStep mem a (mem (b + j)) st i).2.2 =
      editDistance (bytes mem a (i + 1)) (bytes mem b (j + 1)) := by
    simp only [levStep]
    rw [hbd, hci, h4, hrec]
    have hz1 := table_zero_left mem a b (j + 1)
    have hz0 := table_zero_left mem a b j
    by_cases hi0 : i = 0
    · subst hi0
      rw [if_pos rfl]
      rw [hz1, hz0]
      split_ifs <;> omega
    · rw [if_neg hi0]
      split_ifs <;> omega
  refine ⟨?_, ?_, ?_, ?_⟩
  · intro k hk
    by_cases hki : k = i
    · subst hki
      have : (levStep mem a (mem (b + j)) st k).1 k = (levStep mem a (mem (b + j)) st k).2.2 := by
        simp [levStep, store]
      rw [this, hres]
    · have : (levStep mem a (mem (b + j)) st i).1 k = st.1 k := by
        simp [levStep, store, hki]
      rw [this]
      exact h1 k (by omega)
  · intro k hk
    have hki : k ≠ i := by omega
    have : (levStep mem a (mem (b + j)) st i).1 k = st.1 k := by
      simp [levStep, store, hki]
    rw [this]
    exact h2 k (by omega)
  · exact hci
  · rw [if_neg (Nat.succ_ne_zero i)]
    exact hres

theorem levRow_inv (mem : Nat → Nat) (a b la j : Nat) (hla : 0 < la)
    (st : (Nat → Nat) × Nat)
    (hc : ∀ k, k < la → st.1 k = editDistance (bytes mem a (k + 1)) (bytes mem b j)) :
    (∀ k, k < la → (levRow mem a la b st j).1 k =
        editDistance (bytes mem a (k + 1)) (bytes mem b (j + 1))) ∧
      (levRow mem a la b st j).2 = editDistance (bytes mem a la) (bytes mem b (j + 1)) := by
  have hinv := foldl_range_invariant (levStep mem a (mem (b + j)))
    (InnerInv mem a b j st.1) (st.1, j, j) la
    ⟨fun k hk => absurd hk (Nat.not_lt_zero k), fun k _ => rfl,
      (table_zero_left mem a b j).symm, by simp⟩
    (fun i s hi hp => levStep_inv mem a b la j st.1 hc i s hi hp)
  obtain ⟨h1, -, -, h4⟩ := hinv
  constructor
  · intro k hk
    exact h1 k hk
  · rw [if_neg (by omega)] at h4
    exact h4

theorem init_cache (la : Nat) :
    ∀ k, k < la →
      (List.range la).foldl (fun cache index => store cache index (index + 1)) (fun _ => 0) k =
        k + 1 := by
  have := foldl_range_invariant (fun (cache : Nat → Nat) index => store cache index (index + 1))
    (fun i cache => ∀ k, k < i → cache k = k + 1) (fun _ => 0) la
    (fun k hk => absurd hk (Nat.not_lt_zero k))
    (fun i s _ hp k hk => by
      by_cases hki : k = i
      · subst hki; simp [store]
      · simp only [store, if_neg hki]
        exact hp k (by omega))
  exact this

theorem Levenshtein_n_loop (mem : Nat → Nat) (a b la lb : Nat) (hla : 0 < la) (hlb : 0 < lb) :
    ((List.range lb).foldl (levRow mem a la b)
      ((List.range la).foldl (fun cache index => store cache index (index + 1)) (fun _ => 0),
        0)).2 = editDistance (bytes mem a la) (bytes mem b lb) := by
  have hinv := foldl_range_invariant (levRow mem a la b)
    (fun j st => (∀ k, k < la → st.1 k = editDistance (bytes mem a (k + 1)) (bytes mem b j)) ∧
      (0 < j → st.2 = editDistance (bytes mem a la) (bytes mem b j)))
    ((List.range la).foldl (fun cache index => store cache index (index + 1)) (fun _ => 0), 0) lb
    ⟨fun k hk => by rw [table_zero_right]; exact init_cache la k hk,
      fun h => absurd h (lt_irrefl 0)⟩
    (fun j st _ hp => by
      obtain ⟨r1, r2⟩ := levRow_inv mem a b la j hla st hp.1
      exact ⟨r1, fun _ => r2⟩)
  exact hinv.2 hlb

theorem Levenshtein_n_eq (mem : Nat → Nat) (a la b lb : Nat) (h : a = b → la = lb) :
    Levenshtein_n mem a la b lb = editDistance (bytes mem a la) (bytes mem b lb) := by
  unfold Levenshtein_n
  by_cases hab : a = b
  · rw [if_pos hab]
    have := h hab
    subst hab
    subst this
    exact (editDistance_self _).symm
  · rw [if_neg hab]
    by_cases ha : la = 0
    · rw [if_pos ha]
      subst ha
      exact (table_zero_left mem a b lb).symm
    · rw [if_neg ha]
      by_cases hb : lb = 0
      · rw [if_pos hb]
        subst hb
        exact (table_zero_right mem a b la).symm
      · rw [if_neg hb]
        exact Levenshtein_n_loop mem a b la lb (by omega) (by omega)

/-! ## Edit scripts -/

theorem editDistance_insert (l r : List Nat) (c : Nat) :
    ∀ a, editDistance a (l ++ c :: r) ≤ editDistance a (l ++ r) + 1 := by
  induction l with
  | nil =>
    intro a
    cases a with
    | nil =>
      simp only [editDistance_nil_left, List.length_append, List.length_cons, List.nil_append,
        List.cons_append]
      omega
    | cons x a =>
      have e := editDistance_cons_cons x c a r
      simp only [List.nil_append]
      omega
  | cons y l ih =>
    intro a
    induction a with
    | nil =>
      simp only [editDistance_nil_left, List.length_append, List.length_cons, List.nil_append,
        List.cons_append]
      omega
    | cons x a iha =>
      have e1 := editDistance_cons_cons x y a (l ++ c :: r)
      have e2 := editDistance_cons_cons x y a (l ++ r)
      have i1 := ih (x :: a)
      have i2 := ih a
      simp only [List.cons_append] at iha ⊢
      omega

theorem editDistance_delete (l r : List Nat) (c : Nat) :
    ∀ a, editDistance a (l ++ r) ≤ editDistance a (l ++ c :: r) + 1 := by
  induction l with
  | nil =>
    intro a
    induction a with
    | nil =>
      simp only [editDistance_nil_left, List.length_append, List.length_cons, List.nil_append,
        List.cons_append]
      omega
    | cons x a iha =>
      simp only [List.nil_append] at iha ⊢
      have e := editDistance_cons_cons x c a r
      cases r with
      | nil =>
        simp only [editDistance_nil_right, List.length_cons] at iha e ⊢
        omega
      | cons y r =>
        have e2 := editDistance_cons_cons x y a r
        have s1 := substCost_le x y
        have s2 := substCost_le x c
        have i0 := editDistance_cons_cons x c a (y :: r)
        omega
  | cons y l ih =>
    intro a
    induction a with
    | nil =>
      simp only [editDistance_nil_left, List.length_append, List.length_cons, List.nil_append,
        List.cons_append]
      omega
    | cons x a iha =>
      have e1 := editDistance_cons_cons x y a (l ++ c :: r)
      have e2 := editDistance_cons_cons x y a (l ++ r)
      have i1 := ih (x :: a)
      have i2 := ih a
      simp only [List.cons_append] at iha ⊢
      omega

theorem editDistance_substitute (l r : List Nat) (c d : Nat) :
    ∀ a, editDistance a (l ++ d :: r) ≤ editDistance a (l ++ c :: r) + 1 := by
  induction l with
  | nil =>
    intro a
    induction a with
    | nil =>
      simp only [editDistance_nil_left, List.length_append, List.length_cons, List.nil_append,
        List.cons_append]
      omega
    | cons x a iha =>
      have e1 := editDistance_cons_cons x d a r
      have e2 := editDistance_cons_cons x c a r
      have s1 := substCost_le x d
      simp only [List.nil_append] at iha ⊢
      omega
  | cons y l ih =>
    intro a
    induction a with
    | nil =>
      simp only [editDistance_nil_left, List.length_append, List.length_cons, List.nil_append,
        List.cons_append]
      omega
    | cons x a iha =>
      have e1 := editDistance_cons_cons x y a (l ++ d :: r)
      have e2 := editDistance_cons_cons x y a (l ++ c :: r)
      have i1 := ih (x :: a)
      have i2 := ih a
      simp only [List.cons_append] at iha ⊢
      omega

theorem editDistance_step (a b c : List Nat) (h : EditStep b c) :
    editDistance a c ≤ editDistance a b + 1 := by
  cases h with
  | insertion l r c => exact editDistance_insert l r c a
  | deletion l r c => exact editDistance_delete l r c a
  | substitution l r c d => exact editDistance_substitute l r c d a

theorem editDistance_le_of_edits (n : Nat) (a b : List Nat) (h : EditsIn n a b) :
    editDistance a b ≤ n := by
  induction h with
  | done a => rw [editDistance_self]
  | step _ hs ih => exact Nat.le_trans (editDistance_step _ _ _ hs) (Nat.succ_le_succ ih)

theorem EditStep_cons (x : Nat) (b c : List Nat) (h : EditStep b c) :
    EditStep (x :: b) (x :: c) := by
  cases h with
  | insertion l r c => exact EditStep.insertion (x :: l) r c
  | deletion l r c => exact EditStep.deletion (x :: l) r c
  | substitution l r c d => exact EditStep.substitution (x :: l) r c d

theorem EditsIn_cons (x : Nat) (n : Nat) (a b : List Nat) (h : EditsIn n a b) :
    EditsIn n (x :: a) (x :: b) := by
  induction h with
  | done a => exact EditsIn.done _
  | step _ hs ih => exact EditsIn.step ih (EditStep_cons x _ _ hs)

theorem EditsIn_head (n : Nat) (a b c : List Nat) (hs : EditStep a b) (h : EditsIn n b c) :
    EditsIn (n + 1) a c := by
  induction h with
  | done b => exact EditsIn.step (EditsIn.done a) hs
  | step _ hs2 ih => exact EditsIn.step (ih hs) hs2

theorem EditsIn_from_nil (ys : List Nat) : EditsIn ys.length [] ys := by
  induction ys with
  | nil => exact EditsIn.done []
  | cons y ys ih => exact EditsIn.step ih (EditStep.insertion [] ys y)

theorem EditsIn_to_nil (xs : List Nat) : EditsIn xs.length xs [] := by
  induction xs with
  | nil => exact EditsIn.done []
  | cons x xs ih => exact EditsIn_head _ _ _ _ (EditStep.deletion [] xs x) ih

theorem edits_of_editDistance (xs : List Nat) :
    ∀ ys, EditsIn (editDistance xs ys) xs ys := by
  induction xs with
  | nil =>
    intro ys
    rw [editDistance_nil_left]
    exact EditsIn_from_nil ys
  | cons x xs ih =>
    intro ys
    induction ys with
    | nil =>
      rw [editDistance_nil_right]
      exact EditsIn_to_nil (x :: xs)
    | cons y ys ih2 =>
      rw [editDistance_cons_cons]
      rcases min_choice (min (editDistance xs (y :: ys) + 1) (editDistance (x :: xs) ys + 1))
        (editDistance xs ys + substCost x y) with h | h
      · rw [h]
        rcases min_choice (editDistance xs (y :: ys) + 1) (editDistance (x :: xs) ys + 1)
          with h' | h'
        · rw [h']
          exact EditsIn_head _ _ _ _ (EditStep.deletion [] xs x) (ih (y :: ys))
        · rw [h']
          exact EditsIn.step ih2 (EditStep.insertion [] ys y)
      · rw [h]
        have hc := EditsIn_cons x _ _ _ (ih ys)
        by_cases hxy : x = y
        · subst hxy
          simpa [substCost] using hc
        · have : substCost x y = 1 := by simp [substCost, hxy]
          rw [this]
          exact EditsIn.step hc (EditStep.substitution [] ys x y)

/-! ## `Levenshtein_n` -/

/-- C14 (as stated, refuted): called with the same address for both strings,
lengths 1 and 2, over a memory of letters "a", `Levenshtein_n` returns 0, while
the edit distance from "a" to "aa" is 1. -/
theorem Levenshtein_n_same_pointer :
    Levenshtein_n (fun _ => 97) 4096 1 4096 2 = 0 ∧
      bytes (fun _ => 97) 4096 1 = [97] ∧ bytes (fun _ => 97) 4096 2 = [97, 97] ∧
      editDistance [97] [97, 97] = 1 ∧
      ¬ EditsIn (Levenshtein_n (fun _ => 97) 4096 1 4096 2) [97] [97, 97] := by
  have h1 : Levenshtein_n (fun _ => 97) 4096 1 4096 2 = 0 := by rfl
  have h2 : editDistance [97] [97, 97] = 1 := by
    simp [editDistance_cons_cons, editDistance_nil_left, editDistance_nil_right, substCost]
  refine ⟨h1, by rfl, by rfl, h2, ?_⟩
  rw [h1]
  intro h
  have := editDistance_le_of_edits _ _ _ h
  omega

/-- C14 (amended): for byte strings `a` of length `la` and `b` of length `lb`
that are not passed by the same address with different lengths,
`Levenshtein_n(a, la, b, lb)` is the Levenshtein edit distance: that many
single-character insertions, deletions and substitutions turn `a` into `b` and
no fewer do; it is `lb` when `la = 0`, `la` when `lb = 0`, and 0 when the
strings are equal.  When both addresses are equal it returns 0 whatever the
lengths. -/
theorem Levenshtein_n_is_edit_distance (mem : Nat → Nat) (a la b lb : Nat) :
    ((a = b → la = lb) →
      Levenshtein_n mem a la b lb = editDistance (bytes mem a la) (bytes mem b lb) ∧
        EditsIn (Levenshtein_n mem a la b lb) (bytes mem a la) (bytes mem b lb) ∧
        (∀ n, EditsIn n (bytes mem a la) (bytes mem b lb) → Levenshtein_n mem a la b lb ≤ n) ∧
        (la = 0 → Levenshtein_n mem a la b lb = lb) ∧
        (lb = 0 → Levenshtein_n mem a la b lb = la) ∧
        (bytes mem a la = bytes mem b lb → Levenshtein_n mem a la b lb = 0)) ∧
      (a = b → Levenshtein_n mem a la b lb = 0) := by
  refine ⟨fun h => ?_, fun hab => ?_⟩
  · have e := Levenshtein_n_eq mem a la b lb h
    refine ⟨e, ?_, ?_, ?_, ?_, ?_⟩
    · rw [e]
      exact edits_of_editDistance _ _
    · intro n hn
      rw [e]
      exact editDistance_le_of_edits n _ _ hn
    · intro h0
      subst h0
      rw [e]
      exact table_zero_left mem a b lb
    · intro h0
      subst h0
      rw [e]
      exact table_zero_right mem a b la
    · intro heq
      rw [e, heq]
      exact editDistance_self _
  · unfold Levenshtein_n
    rw [if_pos hab]

/-- Witness of the amended C14: "kitten" at address 0 and "sitting" at
address 16 of a memory holding both; and address 0 passed twice, with lengths
6 and 7. -/
theorem Levenshtein_n_is_edit_distance_witness :
    (Levenshtein_n memKS 0 6 16 7 = editDistance (bytes memKS 0 6) (bytes memKS 16 7) ∧
      EditsIn (Levenshtein_n memKS 0 6 16 7) (bytes memKS 0 6) (bytes memKS 16 7) ∧
      (∀ n, EditsIn n (bytes memKS 0 6) (bytes memKS 16 7) → Levenshtein_n memKS 0 6 16 7 ≤ n) ∧
      ((6 : Nat) = 0 → Levenshtein_n memKS 0 6 16 7 = 7) ∧
      ((7 : Nat) = 0 → Levenshtein_n memKS 0 6 16 7 = 6) ∧
      (bytes memKS 0 6 = bytes memKS 16 7 → Levenshtein_n memKS 0 6 16 7 = 0)) ∧
      Levenshtein_n memKS 0 6 0 7 = 0 :=
  ⟨(Levenshtein_n_is_edit_distance memKS 0 6 16 7).1 (by decide),
    (Levenshtein_n_is_edit_distance memKS 0 6 0 7).2 rfl⟩

/-! ## Character-class searches -/

theorem charAt_cons_succ (c : Char) (val : List Char) (i : Nat) :
    charAt (c :: val) (i + 1) = charAt val i := by
  simp [charAt]

theorem charAt_cons_zero (c : Char) (val : List Char) : charAt (c :: val) 0 = c := by
  simp [charAt]

theorem firstCharLoop_none (Fn : Char → Int) (Neg : Bool) (l : List Char) (k : Nat) :
    firstCharLoop Fn Neg l k = none ↔ ∀ i, i < l.length → ¬ charTest Fn Neg (charAt l i) = true := by
  induction l generalizing k with
  | nil => simp [firstCharLoop]
  | cons c rest ih =>
    unfold firstCharLoop
    by_cases hc : charTest Fn Neg c = true
    · rw [if_pos hc]
      constructor
      · intro h; cases h
      · intro h
        exact absurd (by rw [charAt_cons_zero]; exact hc) (h 0 (by simp))
    · rw [if_neg hc, ih]
      constructor
      · intro h i hi
        cases i with
        | zero => rw [charAt_cons_zero]; exact hc
        | succ i =>
          rw [charAt_cons_succ]
          exact h i (by simpa using hi)
      · intro h i hi
        have := h (i + 1) (by simpa using hi)
        rwa [charAt_cons_succ] at this

theorem firstCharLoop_some (Fn : Char → Int) (Neg : Bool) (l : List Char) (k r : Nat) :
    firstCharLoop Fn Neg l k = some r ↔
      ∃ i, r = k + i ∧ i < l.length ∧ charTest Fn Neg (charAt l i) = true ∧
        ∀ j, j < i → ¬ charTest Fn Neg (charAt l j) = true := by
  induction l generalizing k with
  | nil => simp [firstCharLoop]
  | cons c rest ih =>
    unfold firstCharLoop
    by_cases hc : charTest Fn Neg c = true
    · rw [if_pos hc]
      constructor
      · intro h
        injection h with h
        exact ⟨0, by omega, by simp, by rw [charAt_cons_zero]; exact hc, by intro j hj; omega⟩
      · rintro ⟨i, hr, _, _, hmin⟩
        cases i with
        | zero => simp [hr]
        | succ i => exact absurd (by rw [charAt_cons_zero]; exact hc) (hmin 0 (by omega))
    · rw [if_neg hc, ih]
      constructor
      · rintro ⟨i, hr, hi, hq, hmin⟩
        refine ⟨i + 1, by omega, by simpa using hi, by rw [charAt_cons_succ]; exact hq, ?_⟩
        intro j hj
        cases j with
        | zero => rw [charAt_cons_zero]; exact hc
        | succ j => rw [charAt_cons_succ]; exact hmin j (by omega)
      · rintro ⟨i, hr, hi, hq, hmin⟩
        cases i with
        | zero => rw [charAt_cons_zero] at hq; exact absurd hq hc
        | succ i =>
          refine ⟨i, by omega, by simpa using hi, by rwa [charAt_cons_succ] at hq, ?_⟩
          intro j hj
          have := hmin (j + 1) (by omega)
          rwa [charAt_cons_succ] at this

theorem lastCharLoop_none (Fn : Char → Int) (Neg : Bool) (val : List Char) (n : Nat) :
    lastCharLoop Fn Neg val n = none ↔ ∀ i, i < n → ¬ charTest Fn Neg (charAt val i) = true := by
  induction n with
  | zero => simp [lastCharLoop]
  | succ n ih =>
    unfold lastCharLoop
    by_cases hc : charTest Fn Neg (charAt val n) = true
    · rw [if_pos hc]
      constructor
      · intro h; cases h
      · intro h
        exact absurd hc (h n (by omega))
    · rw [if_neg hc, ih]
      constructor
      · intro h i hi
        rcases Nat.lt_succ_iff_lt_or_eq.mp hi with hlt | heq
        · exact h i hlt
        · rw [heq]; exact hc
      · intro h i hi
        exact h i (by omega)

theorem lastCharLoop_some (Fn : Char → Int) (Neg : Bool) (val : List Char) (n r : Nat) :
    lastCharLoop Fn Neg val n = some r ↔
      (r < n ∧ charTest Fn Neg (charAt val r) = true ∧
        ∀ j, r < j → j < n → ¬ charTest Fn Neg (charAt val j) = true) := by
  induction n with
  | zero => simp [lastCharLoop]
  | succ n ih =>
    unfold lastCharLoop
    by_cases hc : charTest Fn Neg (charAt val n) = true
    · rw [if_pos hc]
      constructor
      · intro h
        injection h with h
        subst h
        exact ⟨by omega, hc, by intro j h1 h2; omega⟩
      · rintro ⟨hr, _, hmax⟩
        rcases Nat.lt_succ_iff_lt_or_eq.mp hr with hlt | heq
        · exact absurd hc (hmax n hlt (by omega))
        · rw [heq]
    · rw [if_neg hc, ih]
      constructor
      · rintro ⟨hr, hq, hmax⟩
        refine ⟨by omega, hq, ?_⟩
        intro j h1 h2
        rcases Nat.lt_succ_iff_lt_or_eq.mp h2 with hlt | heq
        · exact hmax j h1 hlt
        · rw [heq]; exact hc
      · rintro ⟨hr, hq, hmax⟩
        rcases Nat.lt_succ_iff_lt_or_eq.mp hr with hlt | heq
        · exact ⟨hlt, hq, fun j h1 h2 => hmax j h1 (by omega)⟩
        · rw [heq] at hq; exact absurd hq hc

theorem SqFirstChar_spec (Fn : Char → Int) (Neg : Bool) (s : List Char)
    (hs : ∀ c ∈ s, c ≠ Char.ofNat 0) :
    SmallestOrNull (fun i => charTest Fn Neg (charAt s i) = true) s.length
      (SqFirstChar Fn Neg s) := by
  unfold SqFirstChar SmallestOrNull
  rw [cstr_of_no_nul s hs]
  by_cases hlen : s.length = 0
  · simp [hlen]
  · simp only [ne_eq, hlen, not_false_eq_true, if_true]
    refine ⟨firstCharLoop_none Fn Neg s 0, ?_⟩
    intro i
    rw [firstCharLoop_some]
    constructor
    · rintro ⟨k, hk, h⟩
      have : i = k := by omega
      subst this
      exact h
    · intro h
      exact ⟨i, by omega, h⟩

theorem SqLastChar_spec (Fn : Char → Int) (Neg : Bool) (s : List Char) :
    LargestOrNull (fun i => charTest Fn Neg (charAt s i) = true) s.length
      (SqLastChar Fn Neg s) := by
  unfold SqLastChar LargestOrNull
  by_cases hlen : s.length = 0
  · simp [hlen]
  · simp only [ne_eq, hlen, not_false_eq_true, if_true]
    exact ⟨lastCharLoop_none Fn Neg s s.length, fun i => lastCharLoop_some Fn Neg s s.length i⟩

theorem charTest_false (Fn : Char → Int) (c : Char) :
    charTest Fn false c = true ↔ Fn c ≠ 0 := by
  simp [charTest]

theorem charTest_true (Fn : Char → Int) (c : Char) :
    charTest Fn true c = true ↔ Fn c = 0 := by
  simp [charTest]

theorem Register_String_First (P : CType) :
    Register_String.lookup ("First" ++ P.className) = some (.SqFirstChar P false) := by
  cases P <;> rfl

theorem Register_String_Last (P : CType) :
    Register_String.lookup ("Last" ++ P.className) = some (.SqLastChar P false) := by
  cases P <;> rfl

theorem Register_String_FirstNot (P : CType) :
    Register_String.lookup ("FirstNot" ++ P.className) = some (.SqFirstChar P true) := by
  cases P <;> rfl

theorem Register_String_LastNot (P : CType) :
    Register_String.lookup ("LastNot" ++ P.className) = some (.SqLastChar P true) := by
  cases P <;> rfl

/-- C21: for every character class `P` (whatever the `<cctype>` predicates
answer) and every string `s` without an embedded NUL, the script functions
bound by `Register_String` under `FirstP`, `LastP`, `FirstNotP` and `LastNotP`
are all bound, and on `s` they return the smallest and the largest index whose
character is in `P`, and the smallest and the largest index whose character is
not in `P`; each returns null exactly when no character of `s` qualifies, so
all four return null on the empty string. -/
theorem First_Last_char_class (ctype : CType → Char → Int) (P : CType) (s : List Char)
    (hs : ∀ c ∈ s, c ≠ Char.ofNat 0) :
    ∃ first last firstNot lastNot,
      callString ctype ("First" ++ P.className) s = some first ∧
      callString ctype ("Last" ++ P.className) s = some last ∧
      callString ctype ("FirstNot" ++ P.className) s = some firstNot ∧
      callString ctype ("LastNot" ++ P.className) s = some lastNot ∧
      SmallestOrNull (fun i => ctype P (charAt s i) ≠ 0) s.length first ∧
      LargestOrNull (fun i => ctype P (charAt s i) ≠ 0) s.length last ∧
      SmallestOrNull (fun i => ctype P (charAt s i) = 0) s.length firstNot ∧
      LargestOrNull (fun i => ctype P (charAt s i) = 0) s.length lastNot ∧
      (s = [] → first = none ∧ last = none ∧ firstNot = none ∧ lastNot = none) := by
  refine ⟨SqFirstChar (ctype P) false s, SqLastChar (ctype P) false s,
    SqFirstChar (ctype P) true s, SqLastChar (ctype P) true s, ?_, ?_, ?_, ?_, ?_, ?_, ?_, ?_, ?_⟩
  · simp only [callString, Register_String_First, Option.map_some', CharSearch.run]
  · simp only [callString, Register_String_Last, Option.map_some', CharSearch.run]
  · simp only [callString, Register_String_FirstNot, Option.map_some', CharSearch.run]
  · simp only [callString, Register_String_LastNot, Option.map_some', CharSearch.run]
  · have h := SqFirstChar_spec (ctype P) false s hs
    simpa only [charTest_false] using h
  · have h := SqLastChar_spec (ctype P) false s
    simpa only [charTest_false] using h
  · have h := SqFirstChar_spec (ctype P) true s hs
    simpa only [charTest_true] using h
  · have h := SqLastChar_spec (ctype P) true s
    simpa only [charTest_true] using h
  · intro he
    subst he
    exact ⟨rfl, rfl, rfl, rfl⟩

/-- Witness for C21: the digits of "ab12c" sit at indices 2 and 3, its first
and last non-digits at indices 0 and 4. -/
theorem First_Last_char_class_witness :
    (∀ c ∈ ['a', 'b', '1', '2', 'c'], c ≠ Char.ofNat 0) ∧
      callString ctypeC "FirstDigit" ['a', 'b', '1', '2', 'c'] = some (some 2) ∧
      callString ctypeC "LastDigit" ['a', 'b', '1', '2', 'c'] = some (some 3) ∧
      callString ctypeC "FirstNotDigit" ['a', 'b', '1', '2', 'c'] = some (some 0) ∧
      callString ctypeC "LastNotDigit" ['a', 'b', '1', '2', 'c'] = some (some 4) ∧
      ∃ first last firstNot lastNot,
        callString ctypeC ("First" ++ CType.isdigit.className) ['a', 'b', '1', '2', 'c'] =
          some first ∧
        callString ctypeC ("Last" ++ CType.isdigit.className) ['a', 'b', '1', '2', 'c'] =
          some last ∧
        callString ctypeC ("FirstNot" ++ CType.isdigit.className) ['a', 'b', '1', '2', 'c'] =
          some firstNot ∧
        callString ctypeC ("LastNot" ++ CType.isdigit.className) ['a', 'b', '1', '2', 'c'] =
          some lastNot ∧
        SmallestOrNull (fun i => ctypeC .isdigit (charAt ['a', 'b', '1', '2', 'c'] i) ≠ 0) 5 first ∧
        LargestOrNull (fun i => ctypeC .isdigit (charAt ['a', 'b', '1', '2', 'c'] i) ≠ 0) 5 last ∧
        SmallestOrNull (fun i => ctypeC .isdigit (charAt ['a', 'b', '1', '2', 'c'] i) = 0) 5
          firstNot ∧
        LargestOrNull (fun i => ctypeC .isdigit (charAt ['a', 'b', '1', '2', 'c'] i) = 0) 5
          lastNot ∧
        (['a', 'b', '1', '2', 'c'] = [] →
          first = none ∧ last = none ∧ firstNot = none ∧ lastNot = none) :=
  ⟨by decide, by decide, by decide, by decide, by decide,
    First_Last_char_class ctypeC .isdigit ['a', 'b', '1', '2', 'c'] (by decide)⟩

/-- Why the string must hold no NUL: `SqFirstChar` stops at the first NUL of
the buffer while `SqLastChar` starts from `s.mLen`, so on a, NUL, 1 the first
digit is not found although the last one is. -/
theorem SqFirstChar_stops_at_nul :
    callString ctypeC "FirstDigit" ['a', Char.ofNat 0, '1'] = some none ∧
      callString ctypeC "LastDigit" ['a', Char.ofNat 0, '1'] = some (some 2) := by
  decide

end SqMod

/-! # `fmt::join` -/

namespace Fmt

theorem foldl_join_prepend {α : Type} (fmt : α → String) (sep : String) (rest : List α) :
    ∀ (p acc : String),
      rest.foldl (fun out y => out ++ sep ++ fmt y) (p ++ acc) =
        p ++ rest.foldl (fun out y => out ++ sep ++ fmt y) acc := by
  induction rest with
  | nil => intro p acc; rfl
  | cons y r ih =>
    intro p acc
    simp only [List.foldl_cons]
    rw [String.append_assoc, String.append_assoc, ih, String.append_assoc]

theorem intercalate_go_eq_foldl {α : Type} (fmt : α → String) (sep : String) (rest : List α) :
    ∀ acc : String, String.intercalate.go acc sep (rest.map fmt) =
      rest.foldl (fun out y => out ++ sep ++ fmt y) acc := by
  induction rest with
  | nil => intro acc; rfl
  | cons y r ih =>
    intro acc
    simp only [List.map_cons, String.intercalate.go, List.foldl_cons]
    exact ih _

/-- C19: `fmt::join` of an empty range is the empty string, of one element
that element formatted; of more elements it is the first element, the
separator and the join of the others, and equally the join of all but the last
element, the separator and the last element, so no separator leads or trails;
it gives what the test of the ranges expects. -/
theorem join_separates_elements {α : Type} (fmt : α → String) (sep : String) :
    join fmt [] sep = "" ∧
      (∀ x, join fmt [x] sep = fmt x) ∧
      (∀ x y rest, join fmt (x :: y :: rest) sep = fmt x ++ sep ++ join fmt (y :: rest) sep) ∧
      (∀ x rest y, join fmt (x :: rest ++ [y]) sep = join fmt (x :: rest) sep ++ sep ++ fmt y) ∧
      (∀ range, join fmt range sep = sep.intercalate (range.map fmt)) ∧
      join id ["a", "1", "2"] ", " = "a, 1, 2" ∧
      join id ["b", "4"] " + " = "b + 4" ∧
      join id [] "|" = "" ∧
      join id ["4"] "/" = "4" ∧
      join (fun n : Nat => toString n) [1, 2, 3] ", " = "1, 2, 3" ∧
      join id ["fmt", "rocks", "!"] " " = "fmt rocks !" ∧
      join (fun c : Char => c.toString) "hello".data "_" = "h_e_l_l_o" ∧
      join (fun n : Nat => toString n) (List.replicate 3 0) "," = "0,0,0" := by
  have h3 : ∀ x y rest,
      join fmt (x :: y :: rest) sep = fmt x ++ sep ++ join fmt (y :: rest) sep := by
    intro x y rest
    simp only [join, List.foldl_cons]
    rw [String.append_assoc, foldl_join_prepend, foldl_join_prepend, String.append_assoc]
  refine ⟨rfl, fun x => rfl, h3, ?_, ?_, ?_⟩
  · intro x rest y
    simp [join, List.foldl_append]
  · intro range
    cases range with
    | nil => rfl
    | cons x rest =>
      simp only [join, List.map_cons, String.intercalate]
      exact (intercalate_go_eq_foldl fmt sep rest (fmt x)).symm
  · refine ⟨by decide, by decide, by decide, by decide, by decide, by decide, by decide, by decide⟩

end Fmt
